import Mathlib

/-!
Verification of the call-flow extraction core of the `test-flowchart`
VS Code extension (the `AstService` class).

The development shallowly embeds the repository's `AstService`:

* `findFunctionByName` / `isNodeAroundLine` — declaration lookup,
* the `forEachDescendant` walk of `parseFunctionCalls` (call-site step and
  edge creation, line-window pruning, recursion scheduling),
* the recursive expansion and stitching of sub-results,
* the final entry/exit edge synthesis,

over an abstract syntax model.  Machine details that no statement below
depends on are abstracted as follows:

* `uuidv4()` is modelled by a monotone counter threaded through the state
  (ids are only ever compared for equality in the source);
* the ts-morph AST is modelled by `AstNode` trees carrying 1-indexed line
  spans, with call expressions carrying the result of
  `callee.getSymbol()?.getDeclarations()[0]` (when that declaration is
  function-like) as an optional `CallTarget`;
* the text of a callee expression (`callee.getText()`, resp. the
  `receiver.method` rendering for property accesses) is carried directly on
  the call node as `calleeText`;
* character columns of `createCodeReference` are dropped (only the
  0-indexed line span and file path are kept, as in the source);
* the concurrent fan-out (`descendantParsePromises` / `Promise.all`) is
  modelled as a deterministic left-to-right sequentialisation of the
  sub-extractions.  The visited-set check-and-insert of each sub-call is
  atomic in the source (it runs synchronously up to the first `await`),
  and the stitching callbacks all run after the parent's walk has
  finished, reading the final value of
  `lastProcessedNodeIdInCurrentScope`; both facts are preserved here.
-/

namespace FlowMaster

/-- JS string truthiness for optional string parameters
(`undefined` and `""` are falsy). -/
def jsTruthy : Option String → Option String
  | some s => if s.isEmpty then none else some s
  | none => none

/-- `String.prototype.includes` (substring test), used for the
`node_modules` path check. -/
def strIncludes (s pat : String) : Bool :=
  (List.range (s.length + 1)).any (fun i => (s.drop i).startsWith pat)

/-- `path.basename` (POSIX separators). -/
def basename (p : String) : String :=
  match (p.splitOn "/").getLast? with
  | some s => s
  | none => p

/-- Rendering of an optional line number inside a JS template literal
(`undefined` prints as "undefined"). -/
def optLineStr : Option Nat → String
  | some n => toString n
  | none => "undefined"

/-! ## Data model (`flowTypes`) -/

/-- `CodeReference`: file path plus 0-indexed line span
(character columns elided). -/
structure CodeReference where
  filePath : String
  startLine : Nat
  endLine : Nat
deriving Repr, DecidableEq

/-- `FlowNode["type"]`. -/
inductive FlowNodeType where
  | EntryPoint
  | ExitPoint
  | Function
  | Condition
  | ManualStep
  | Note
deriving Repr, DecidableEq

/-- `FlowNode` (a Step).  Ids are modelled as naturals drawn from a
counter. -/
structure FlowNode where
  id : Nat
  label : String
  type : FlowNodeType
  codeReference : Option CodeReference
  description : String
deriving Repr, DecidableEq

/-- `FlowEdge["type"]`. -/
inductive FlowEdgeType where
  | DirectCall
  | ConditionalCall
deriving Repr, DecidableEq

/-- `FlowEdge` (a Flow).  `from` is a Lean keyword, hence `fromId`/`toId`. -/
structure FlowEdge where
  id : Nat
  fromId : Nat
  toId : Nat
  type : FlowEdgeType
deriving Repr, DecidableEq

/-- The record returned by `parseFunctionCalls`. -/
structure ParseResult where
  nodes : List FlowNode
  edges : List FlowEdge
  entryNodeId : Option Nat
  exitNodeId : Option Nat
deriving Repr, DecidableEq

/-- `{ nodes: [], edges: [], entryNodeId: null, exitNodeId: null }`. -/
def emptyResult : ParseResult := ⟨[], [], none, none⟩

/-! ## Abstract syntax model -/

/-- The first declaration of a call's resolved symbol, when that
declaration is function-like (`FunctionDeclaration`, `MethodDeclaration`,
`ArrowFunction` or `FunctionExpression`).  `name` is the declaration's
name as computed by lines 287–303 of the source (`getName()`, resp. the
enclosing variable/property name for arrow functions), `none` when
absent. -/
structure CallTarget where
  filePath : String
  name : Option String
  startLine : Nat
deriving Repr, DecidableEq

mutual

/-- A node of the scanned syntax tree.  `call` is a `CallExpression`
(carrying the rendered callee text and the resolved declaration, if any);
`plain` is any other node kind.  Line spans are 1-indexed as returned by
`getStartLineNumber` / `getEndLineNumber`.  Sibling subtrees form an
`AstForest` (a mutual inductive rather than a `List`, so that the
traversal below is structurally recursive and computes by `rfl`). -/
inductive AstNode : Type where
  | call (calleeText : String) (startLine endLine : Nat)
      (resolution : Option CallTarget) (children : AstForest)
  | plain (startLine endLine : Nat) (children : AstForest)

/-- A forest of sibling subtrees in document order. -/
inductive AstForest : Type where
  | nil
  | cons (hd : AstNode) (tl : AstForest)

end

def AstNode.nodeStart : AstNode → Nat
  | .call _ s _ _ _ => s
  | .plain s _ _ => s

def AstNode.nodeEnd : AstNode → Nat
  | .call _ _ e _ _ => e
  | .plain _ e _ => e

def AstNode.children : AstNode → AstForest
  | .call _ _ _ _ cs => cs
  | .plain _ _ cs => cs

/-- Kinds an initializer expression can have, as far as
`findFunctionByName` distinguishes them. -/
inductive InitKind where
  | arrowFunction
  | functionExpression
  | otherKind
deriving Repr, DecidableEq

/-- An initializer expression of a property or variable declaration. -/
structure Initializer where
  kind : InitKind
  startLine : Nat
  endLine : Nat
  body : AstForest

/-- A top-level `FunctionDeclaration` (`getName()` may be undefined,
e.g. for `export default function`). -/
structure FunctionDecl where
  name : Option String
  startLine : Nat
  endLine : Nat
  body : AstForest

/-- A class `MethodDeclaration`. -/
structure MethodDecl where
  name : String
  startLine : Nat
  endLine : Nat
  body : AstForest

/-- A class `PropertyDeclaration` (span of the whole property, plus its
initializer if present). -/
structure PropertyDecl where
  name : String
  startLine : Nat
  endLine : Nat
  initializer : Option Initializer

/-- A `ClassDeclaration`, reduced to what `findFunctionByName` reads. -/
structure ClassDecl where
  methods : List MethodDecl
  properties : List PropertyDecl

/-- A top-level `VariableDeclaration` (span of the declaration node). -/
structure VariableDecl where
  name : String
  startLine : Nat
  endLine : Nat
  initializer : Option Initializer

/-- A parsed source file.  `topLevelNodes` is the file's descendant
forest (used when a request scans the whole file or a line range);
`endLine` is the last line of the file's text. -/
structure SourceFile where
  filePath : String
  endLine : Nat
  functions : List FunctionDecl
  classes : List ClassDecl
  variableDeclarations : List VariableDecl
  topLevelNodes : AstForest

/-- The ts-morph `Project`: the universe of loadable source files.
`addSourceFileAtPath` on a path outside it throws, which is the
`catch` branch of lines 114–120. -/
def Project := List SourceFile

/-- `this.project.getSourceFile(filePath)` (plus on-demand load). -/
def getSourceFile (prog : Project) (filePath : String) : Option SourceFile :=
  List.find? (fun sf => sf.filePath == filePath) prog

/-! ## Declaration lookup (`findFunctionByName`, lines 399–470) -/

/-- The function-like node `findFunctionByName` returns (its span and
body). -/
structure FunctionLike where
  startLine : Nat
  endLine : Nat
  body : AstForest

def FunctionDecl.toFunctionLike (f : FunctionDecl) : FunctionLike :=
  ⟨f.startLine, f.endLine, f.body⟩

def MethodDecl.toFunctionLike (m : MethodDecl) : FunctionLike :=
  ⟨m.startLine, m.endLine, m.body⟩

def Initializer.toFunctionLike (i : Initializer) : FunctionLike :=
  ⟨i.startLine, i.endLine, i.body⟩

/-- `isNodeAroundLine` (lines 465–470): the target line falls within the
node's 1-indexed span, both ends inclusive. -/
def isNodeAroundLine (startLine endLine targetLine : Nat) : Bool :=
  targetLine ≥ startLine && targetLine ≤ endLine

/-- `targetLine === undefined || this.isNodeAroundLine(node, targetLine)`. -/
def lineOk (startLine endLine : Nat) (targetLine : Option Nat) : Bool :=
  match targetLine with
  | none => true
  | some t => isNodeAroundLine startLine endLine t

/-- The search inside one class: its methods first, then its properties
whose initializer is an arrow function (lines 423–445). -/
def findInClass (c : ClassDecl) (functionName : String)
    (targetLine : Option Nat) : Option FunctionLike :=
  match c.methods.find? (fun m =>
      m.name == functionName && lineOk m.startLine m.endLine targetLine) with
  | some m => some m.toFunctionLike
  | none =>
    c.properties.findSome? (fun p =>
      match p.initializer with
      | some init =>
        if init.kind == InitKind.arrowFunction && p.name == functionName
            && lineOk p.startLine p.endLine targetLine then
          some init.toFunctionLike
        else none
      | none => none)

/-- The class stage iterates classes in order, fully searching each class
(methods, then arrow properties) before the next (`foundFunc` threading
of lines 423–445). -/
def findInClasses (cs : List ClassDecl) (functionName : String)
    (targetLine : Option Nat) : Option FunctionLike :=
  cs.findSome? (fun c => findInClass c functionName targetLine)

/-- `findFunctionByName` (lines 399–463): top-level named functions,
then classes (per class: methods, then arrow-function properties), then
top-level variable declarations whose initializer is an arrow function
or function expression. -/
def findFunctionByName (sf : SourceFile) (functionName : String)
    (targetLine : Option Nat) : Option FunctionLike :=
  match sf.functions.find? (fun f =>
      f.name == some functionName && lineOk f.startLine f.endLine targetLine) with
  | some f => some f.toFunctionLike
  | none =>
    match findInClasses sf.classes functionName targetLine with
    | some fl => some fl
    | none =>
      sf.variableDeclarations.findSome? (fun vd =>
        if vd.name == functionName then
          match vd.initializer with
          | some init =>
            if (init.kind == InitKind.arrowFunction
                  || init.kind == InitKind.functionExpression)
                && lineOk vd.startLine vd.endLine targetLine then
              some init.toFunctionLike
            else none
          | none => none
        else none)

/-! ## The descendant walk (lines 230–354) -/

/-- `createCodeReference` restricted to a line span: ts-morph lines are
1-indexed, the stored reference is 0-indexed (lines 60–67). -/
def createCodeReference (filePath : String) (startLine endLine : Nat) :
    CodeReference :=
  ⟨filePath, startLine - 1, endLine - 1⟩

/-- A recursive expansion scheduled during the walk
(`descendantParsePromises` entry): the call-site node id and the resolved
declaration it will expand. -/
structure Pending where
  callSiteId : Nat
  target : CallTarget
deriving Repr, DecidableEq

/-- Mutable state of one `forEachDescendant` walk: the accumulating
`localNodes`/`localEdges`, `lastProcessedNodeIdInCurrentScope`, the
scheduled expansions, and the fresh-id counter. -/
structure WalkSt where
  nodes : List FlowNode
  edges : List FlowEdge
  lastId : Nat
  pendings : List Pending
  nextId : Nat
deriving Repr

/-- The body of the `forEachDescendant` callback for a `CallExpression`
that survived the line-window check (lines 242–352), minus the recursive
promise itself (which is scheduled in `pendings`).  Returns the state
together with `true` when the node's own subtree must be skipped
(`traversal.skip()`, line 344). -/
def processCall (filePath : String) (calleeText : String)
    (startLine endLine : Nat) (resolution : Option CallTarget)
    (st : WalkSt) : WalkSt × Bool :=
  let callSiteId := st.nextId
  let callSiteNode : FlowNode :=
    ⟨callSiteId, "Call: " ++ calleeText, FlowNodeType.Function,
      some (createCodeReference filePath startLine endLine),
      "Invocation of " ++ calleeText⟩
  let st1 : WalkSt := { st with nodes := st.nodes ++ [callSiteNode], nextId := st.nextId + 1 }
  -- `if (lastProcessedNodeIdInCurrentScope)`: id strings are never empty,
  -- so the guard of line 263 always passes.
  let callEdge : FlowEdge := ⟨st1.nextId, st1.lastId, callSiteId, FlowEdgeType.DirectCall⟩
  let st2 : WalkSt := { st1 with edges := st1.edges ++ [callEdge], nextId := st1.nextId + 1 }
  match resolution with
  | some ct =>
    if strIncludes ct.filePath "node_modules" then
      -- resolved but external: fall through to line 351, keep walking the
      -- call's subtree
      ({ st2 with lastId := callSiteId }, false)
    else
      -- in-project: schedule the recursion, `traversal.skip()` (line 344)
      ({ st2 with
          pendings := st2.pendings ++ [Pending.mk callSiteId ct],
          lastId := callSiteId }, true)
  | none =>
    -- no symbol / no declarations / not function-like: line 351
    ({ st2 with lastId := callSiteId }, false)

/-- The node is not entirely inside the line window (line 234:
`nodeStartLine < startLine || nodeEndLine > endLine`); vacuously false
when either bound is undefined (line 231). -/
def notFullyInside (startLine? endLine? : Option Nat) (s e : Nat) : Bool :=
  match startLine?, endLine? with
  | some startLine, some endLine => s < startLine || e > endLine
  | _, _ => false

/-- The node lies entirely outside the line window (line 235:
`nodeEndLine < startLine || nodeStartLine > endLine`). -/
def entirelyOutside (startLine? endLine? : Option Nat) (s e : Nat) : Bool :=
  match startLine?, endLine? with
  | some startLine, some endLine => e < startLine || s > endLine
  | _, _ => false

/-- The `forEachDescendant` traversal (lines 230–354) over a forest of
sibling subtrees, in document order.  Per node: the line-window check of
lines 231–240 (`traversal.skip()` for subtrees entirely outside the
window; a bare `return` — descendants still visited, but no step — for
nodes not entirely inside), then the call-expression handling. -/
def walkNodes (filePath : String) (startLine? endLine? : Option Nat) :
    AstForest → WalkSt → WalkSt
  | AstForest.nil, st => st
  | AstForest.cons (AstNode.plain s e children) rest, st =>
    if notFullyInside startLine? endLine? s e then
      if entirelyOutside startLine? endLine? s e then
        walkNodes filePath startLine? endLine? rest st
      else
        walkNodes filePath startLine? endLine? rest
          (walkNodes filePath startLine? endLine? children st)
    else
      -- a non-call node in the window: nothing to do, visit descendants
      walkNodes filePath startLine? endLine? rest
        (walkNodes filePath startLine? endLine? children st)
  | AstForest.cons (AstNode.call calleeText s e resolution children) rest, st =>
    if notFullyInside startLine? endLine? s e then
      if entirelyOutside startLine? endLine? s e then
        walkNodes filePath startLine? endLine? rest st
      else
        walkNodes filePath startLine? endLine? rest
          (walkNodes filePath startLine? endLine? children st)
    else
      match processCall filePath calleeText s e resolution st with
      | (st1, true) => walkNodes filePath startLine? endLine? rest st1
      | (st1, false) =>
        walkNodes filePath startLine? endLine? rest
          (walkNodes filePath startLine? endLine? children st1)
termination_by structural l _ => l

/-! ## Recursive expansion and stitching (lines 70–397) -/

/-- Target-name synthesis for a resolved declaration (lines 287–305):
the declaration's own name when truthy, else
`anonymous_func_at_L<line>`. -/
def targetNameOf (ct : CallTarget) : String :=
  match jsTruthy ct.name with
  | some n => n
  | none => "anonymous_func_at_L" ++ toString ct.startLine

/-- Request state threaded through one top-level extraction:
`this.visitedFunctions` plus the fresh-id counter. -/
structure ParseState where
  visited : List String
  nextId : Nat
deriving Repr, DecidableEq

/-- The visited key of a request (line 87):
`` `${filePath}::${functionName || `range:${startLine}-${endLine}`}` ``. -/
def visitedKeyOf (filePath : String) (functionName : Option String)
    (startLine endLine : Option Nat) : String :=
  filePath ++ "::" ++
    (match jsTruthy functionName with
     | some n => n
     | none => "range:" ++ optLineStr startLine ++ "-" ++ optLineStr endLine)

/-- The type of the recursive entry point passed down one fuel level. -/
def RecParse : Type :=
  String → Option String → Option Nat → Option Nat → Bool → Option Nat →
    ParseState → ParseResult × ParseState

/-- Sequentialised expansion of the scheduled recursions and stitching of
their results (lines 308–342 and 356).  Each `.then` callback of the
source runs after the parent's walk has completed, so the stitch-back
edge target `lastProcessedNodeIdInCurrentScope` (line 335) is the walk's
final value `wLast` for every expansion. -/
def expandPendings (parse : RecParse) (wLast : Nat) :
    List Pending → List FlowNode → List FlowEdge → ParseState →
    List FlowNode × List FlowEdge × ParseState
  | [], nodes, edges, st => (nodes, edges, st)
  | p :: rest, nodes, edges, st =>
    let targetName := targetNameOf p.target
    let res := parse p.target.filePath (some targetName) (some p.target.startLine)
        none true (some p.callSiteId) st
    let r := res.1
    let st' := res.2
    -- `if (recursiveResult.nodes.length > 0 && recursiveResult.entryNodeId)`
    if r.nodes.length > 0 then
      match r.entryNodeId with
      | some childEntry =>
        let nodes1 : List FlowNode := nodes ++ r.nodes
        let edges1 : List FlowEdge := edges ++ r.edges ++
          [⟨st'.nextId, p.callSiteId, childEntry, FlowEdgeType.DirectCall⟩]
        let st1 : ParseState := ⟨st'.visited, st'.nextId + 1⟩
        match r.exitNodeId with
        | some childExit =>
          if edges1.any (fun ed => ed.fromId == childExit) then
            expandPendings parse wLast rest nodes1 edges1 st1
          else
            expandPendings parse wLast rest nodes1
              (edges1 ++ [⟨st1.nextId, childExit, wLast, FlowEdgeType.DirectCall⟩])
              ⟨st1.visited, st1.nextId + 1⟩
        | none => expandPendings parse wLast rest nodes1 edges1 st1
      | none => expandPendings parse wLast rest nodes edges st'
    else expandPendings parse wLast rest nodes edges st'

/-- The closing edge synthesis of lines 358–386: connect the last
processed node to the scope's exit when it has no outgoing edge yet, or
the entry directly to the exit for an empty scope. -/
def finishScope (entryId exitId : Nat) (nodes : List FlowNode)
    (edges : List FlowEdge) (wLast : Nat) (st : ParseState) :
    ParseResult × ParseState :=
  let hasOut := edges.any (fun ed => ed.fromId == wLast)
  -- `lastProcessedNodeIdInCurrentScope` is truthy (a uuid string), so the
  -- first conjunct of line 364 always passes.
  if wLast != exitId && !hasOut then
    (⟨nodes, edges ++ [⟨st.nextId, wLast, exitId, FlowEdgeType.DirectCall⟩],
        some entryId, some exitId⟩,
      ⟨st.visited, st.nextId + 1⟩)
  else if wLast == entryId && entryId != exitId && nodes.length ≤ 2 then
    (⟨nodes, edges ++ [⟨st.nextId, entryId, exitId, FlowEdgeType.DirectCall⟩],
        some entryId, some exitId⟩,
      ⟨st.visited, st.nextId + 1⟩)
  else (⟨nodes, edges, some entryId, some exitId⟩, st)

/-- Walk a resolved scope, expand its scheduled recursions, stitch, and
close it (lines 227–397, common to the three scope kinds). -/
def scanScope (parse : RecParse) (filePath : String)
    (startLine? endLine? : Option Nat) (forest : AstForest)
    (entryId exitId : Nat) (nodes0 : List FlowNode) (st : ParseState) :
    ParseResult × ParseState :=
  let w := walkNodes filePath startLine? endLine? forest
    ⟨nodes0, [], entryId, [], st.nextId⟩
  let ex := expandPendings parse w.lastId w.pendings w.nodes w.edges
    ⟨st.visited, w.nextId⟩
  finishScope entryId exitId ex.1 ex.2.1 w.lastId ex.2.2

/-- The body of `parseFunctionCalls` after the top-level visited-set
clear: visited-key check and insertion (lines 87–93), source-file load
(lines 104–120), scope resolution (lines 122–225), then `scanScope`. -/
def parseCore (prog : Project) (parse : RecParse) (filePath : String)
    (functionName : Option String) (startLine endLine : Option Nat)
    (isRecursiveCall : Bool) (callerNodeId : Option Nat)
    (st0 : ParseState) : ParseResult × ParseState :=
  let visitedKey := visitedKeyOf filePath functionName startLine endLine
  if st0.visited.contains visitedKey then (emptyResult, st0)
  else
    let st : ParseState := ⟨visitedKey :: st0.visited, st0.nextId⟩
    match getSourceFile prog filePath with
    | none => (emptyResult, st) -- catch branch, lines 114–120
    | some sf =>
      match jsTruthy functionName with
      | some fn =>
        match findFunctionByName sf fn startLine with
        | some f =>
          let entryId := st.nextId
          let exitId := st.nextId + 1
          let entryNode : FlowNode :=
            ⟨entryId, fn,
              (if isRecursiveCall then FlowNodeType.Function else FlowNodeType.EntryPoint),
              some (createCodeReference filePath f.startLine f.endLine),
              (if isRecursiveCall then "Function" else "Entry") ++ ": " ++ fn⟩
          -- exit reference: the function's closing brace (its last line)
          let exitNode : FlowNode :=
            ⟨exitId, "Exit " ++ fn, FlowNodeType.ExitPoint,
              some (createCodeReference filePath f.endLine f.endLine),
              "Exit of " ++ fn⟩
          scanScope parse filePath startLine endLine f.body entryId exitId
            [entryNode, exitNode] ⟨st.visited, st.nextId + 2⟩
        | none =>
          match callerNodeId with
          | some _ =>
            -- unresolved in a recursive branch: single Note stand-in
            let noteId := st.nextId
            (⟨[⟨noteId, "Unresolved: " ++ fn, FlowNodeType.Note, none,
                  "Function " ++ fn ++ " in " ++ filePath ++
                    " not found during recursive call."⟩],
                [], some noteId, some noteId⟩,
              ⟨st.visited, st.nextId + 1⟩)
          | none => (emptyResult, st) -- unresolved at top level
      | none =>
        match startLine, endLine with
        | some sl, some el =>
          if isRecursiveCall then (emptyResult, st)
          else
            -- range scope (lines 174–189)
            let entryId := st.nextId
            let exitId := st.nextId + 1
            let entryNode : FlowNode :=
              ⟨entryId,
                "Code Block (Lines " ++ toString sl ++ "-" ++ toString el ++ ")",
                FlowNodeType.EntryPoint, none,
                "Selected code block in " ++ basename filePath⟩
            let exitNode : FlowNode :=
              ⟨exitId,
                "Exit Block (Lines " ++ toString sl ++ "-" ++ toString el ++ ")",
                FlowNodeType.ExitPoint, none,
                "Exit of selected block in " ++ basename filePath⟩
            scanScope parse filePath startLine endLine sf.topLevelNodes
              entryId exitId [entryNode, exitNode] ⟨st.visited, st.nextId + 2⟩
        | _, _ =>
          if isRecursiveCall then (emptyResult, st) -- lines 211–215
          else
            -- whole-file scope (lines 190–210)
            let entryId := st.nextId
            let exitId := st.nextId + 1
            let entryNode : FlowNode :=
              ⟨entryId, basename filePath, FlowNodeType.EntryPoint,
                some (createCodeReference filePath 1 sf.endLine),
                "Entry: File " ++ basename filePath⟩
            let exitNode : FlowNode :=
              ⟨exitId, "Exit File " ++ basename filePath, FlowNodeType.ExitPoint,
                none, "Exit of file " ++ basename filePath⟩
            scanScope parse filePath startLine endLine sf.topLevelNodes
              entryId exitId [entryNode, exitNode] ⟨st.visited, st.nextId + 2⟩

/-- `parseFunctionCalls` (lines 70–397), with an explicit recursion-depth
fuel.  The source recursion is guarded only by the visited set; the fuel
is shown sufficient (and the result fuel-independent) once it exceeds the
number of resolvable targets of the project. -/
def parseFunctionCalls (prog : Project) : Nat → RecParse
  | 0 => fun _ _ _ _ _ _ st => (emptyResult, st)
  | fuel + 1 => fun filePath functionName startLine endLine isRecursiveCall callerNodeId st0 =>
    -- `if (!isRecursiveCall) this.visitedFunctions.clear()`
    let st1 : ParseState := if isRecursiveCall then st0 else ⟨[], st0.nextId⟩
    parseCore prog (parseFunctionCalls prog fuel) filePath functionName
      startLine endLine isRecursiveCall callerNodeId st1

/-! ## Derived notions used by the statements -/

/-- A forest containing no `CallExpression` anywhere. -/
def callFree : AstForest → Bool
  | AstForest.nil => true
  | AstForest.cons (AstNode.call _ _ _ _ _) _ => false
  | AstForest.cons (AstNode.plain _ _ children) rest => callFree children && callFree rest
termination_by structural l => l

/-- All line spans in the forest are well-formed 1-indexed spans
(`1 ≤ start ≤ end`), as ts-morph produces them. -/
def spansWF : AstForest → Bool
  | AstForest.nil => true
  | AstForest.cons (AstNode.call _ s e _ children) rest =>
    decide (1 ≤ s) && decide (s ≤ e) && spansWF children && spansWF rest
  | AstForest.cons (AstNode.plain s e children) rest =>
    decide (1 ≤ s) && decide (s ≤ e) && spansWF children && spansWF rest
termination_by structural l => l

/-- All resolved call targets occurring anywhere in a forest. -/
def forestTargets : AstForest → List CallTarget
  | AstForest.nil => []
  | AstForest.cons (AstNode.call _ _ _ resolution children) rest =>
    (match resolution with | some ct => [ct] | none => []) ++
      forestTargets children ++ forestTargets rest
  | AstForest.cons (AstNode.plain _ _ children) rest =>
    forestTargets children ++ forestTargets rest
termination_by structural l => l

/-- Every function-like node of a file `findFunctionByName` can return
(named functions, class methods, property initializers, variable
initializers). -/
def allFunctionLikes (sf : SourceFile) : List FunctionLike :=
  sf.functions.map FunctionDecl.toFunctionLike ++
    sf.classes.flatMap (fun c =>
      c.methods.map MethodDecl.toFunctionLike ++
        c.properties.filterMap (fun p => p.initializer.map Initializer.toFunctionLike)) ++
    sf.variableDeclarations.filterMap (fun vd => vd.initializer.map Initializer.toFunctionLike)

/-- All resolved call targets reachable in a file (its top-level forest
and every function-like body). -/
def fileTargets (sf : SourceFile) : List CallTarget :=
  forestTargets sf.topLevelNodes ++
    (allFunctionLikes sf).flatMap (fun f => forestTargets f.body)

/-- The visited keys any recursive expansion of the project can use. -/
def allKeys (prog : Project) : List String :=
  (prog.flatMap fileTargets).map (fun ct =>
    visitedKeyOf ct.filePath (some (targetNameOf ct)) (some ct.startLine) none)

/-- Fuel sufficient for any request against `prog` (each level of the
recursion permanently claims a fresh key out of `allKeys`, except the
top-level one, whose key may lie outside them). -/
def fuelBound (prog : Project) : Nat := (allKeys prog).length + 2

/-- Number of keys of the project not yet visited. -/
def unseen (prog : Project) (st : ParseState) : Nat :=
  ((allKeys prog).filter (fun k => !(st.visited.contains k))).length

/-- The node is the synthesized scope-entry Step of function `fname` of
file `file`: its label is the bare function name, its description is
`Entry: <name>` (top-level) or `Function: <name>` (recursive), and its
code reference points into `file`.  Call-site, exit, Note and
block/file-boundary Steps never satisfy this (see the exclusion
lemmas). -/
def isScopeEntryFor (file fname : String) (n : FlowNode) : Bool :=
  (match n.codeReference with
   | some ref => ref.filePath == file
   | none => false)
  && n.label == fname
  && (n.description == "Entry: " ++ fname || n.description == "Function: " ++ fname)

/-- Number of scope-entry Steps for `(file, fname)` in a node list. -/
def entryCount (file fname : String) (ns : List FlowNode) : Nat :=
  ns.countP (isScopeEntryFor file fname)

/-- The visited key a scope-entry pair `(file, fname)` corresponds to. -/
def keyForPair (file fname : String) : String := file ++ "::" ++ fname

/-- The visited key the recursive expansion of a scheduled call will
claim. -/
def keyOfPending (pd : Pending) : String :=
  visitedKeyOf pd.target.filePath (some (targetNameOf pd.target))
    (some pd.target.startLine) none

/-- Visited-set discipline of a recursive extraction: the visited set
only grows; a result with a scope-entry Step for a pair means the pair's
key was fresh on entry and claimed on exit; and no result ever carries
two scope-entry Steps for one pair. -/
def ParseCountInv (p : RecParse) : Prop :=
  ∀ (fp' fn' : String) (sl' : Nat) (cal' : Nat) (st' : ParseState),
    st'.visited ⊆
        (p fp' (some fn') (some sl') none true (some cal') st').2.visited ∧
      (∀ file fname, 1 ≤ entryCount file fname
          (p fp' (some fn') (some sl') none true (some cal') st').1.nodes →
        keyForPair file fname ∉ st'.visited ∧
          keyForPair file fname ∈
            (p fp' (some fn') (some sl') none true (some cal') st').2.visited) ∧
      (∀ file fname, entryCount file fname
          (p fp' (some fn') (some sl') none true (some cal') st').1.nodes ≤ 1)

/-- Some node of the list carries this id. -/
def hasId (ns : List FlowNode) (i : Nat) : Prop :=
  ∃ n ∈ ns, n.id = i

/-- Every edge's endpoints name nodes of the list. -/
def EdgesClosed (ns : List FlowNode) (es : List FlowEdge) : Prop :=
  ∀ ed ∈ es, hasId ns ed.fromId ∧ hasId ns ed.toId

/-- The referential invariant of an `ExtractionResult`: every Flow's
`from`/`to` and the non-null entry/exit ids name Steps present in
`steps`. -/
def ResultClosed (r : ParseResult) : Prop :=
  EdgesClosed r.nodes r.edges ∧
    (∀ i, r.entryNodeId = some i → hasId r.nodes i) ∧
    (∀ i, r.exitNodeId = some i → hasId r.nodes i)

/-- The span is accepted by the window check (trivial without a
window). -/
def windowOk (startLine? endLine? : Option Nat) (s e : Nat) : Prop :=
  match startLine?, endLine? with
  | some startLine, some endLine => startLine ≤ s ∧ e ≤ endLine
  | _, _ => True

/-- The call-site Step `processCall` creates. -/
def callSiteNodeOf (filePath calleeText : String) (i s e : Nat) : FlowNode :=
  ⟨i, "Call: " ++ calleeText, FlowNodeType.Function,
    some (createCodeReference filePath s e), "Invocation of " ++ calleeText⟩

/-! ## The declaration-search order as the spec words it (for C7)

The spec claims the stages are searched kind-by-kind: all top-level
functions, then the methods of all classes, then the arrow-function
properties of all classes, then variable bindings.  The source instead
finishes each class (methods, then properties) before the next class. -/

/-- Candidates of stage (1): top-level named functions. -/
def functionMatches (sf : SourceFile) (functionName : String)
    (targetLine : Option Nat) : List FunctionLike :=
  (sf.functions.filter (fun f =>
      f.name == some functionName && lineOk f.startLine f.endLine targetLine)).map
    FunctionDecl.toFunctionLike

/-- Candidates of stage (2) within one class: its methods. -/
def methodMatches (c : ClassDecl) (functionName : String)
    (targetLine : Option Nat) : List FunctionLike :=
  (c.methods.filter (fun m =>
      m.name == functionName && lineOk m.startLine m.endLine targetLine)).map
    MethodDecl.toFunctionLike

/-- Candidates of stage (3) within one class: arrow-function
properties. -/
def propertyMatches (c : ClassDecl) (functionName : String)
    (targetLine : Option Nat) : List FunctionLike :=
  c.properties.filterMap (fun p =>
    match p.initializer with
    | some init =>
      if init.kind == InitKind.arrowFunction && p.name == functionName
          && lineOk p.startLine p.endLine targetLine then
        some init.toFunctionLike
      else none
    | none => none)

/-- Candidates of stage (4): top-level variable bindings. -/
def variableMatches (sf : SourceFile) (functionName : String)
    (targetLine : Option Nat) : List FunctionLike :=
  sf.variableDeclarations.filterMap (fun vd =>
    if vd.name == functionName then
      match vd.initializer with
      | some init =>
        if (init.kind == InitKind.arrowFunction
              || init.kind == InitKind.functionExpression)
            && lineOk vd.startLine vd.endLine targetLine then
          some init.toFunctionLike
        else none
      | none => none
    else none)

/-- C7's claimed order: stage (2) exhausts the methods of every class
before stage (3) looks at any property. -/
def findFunctionByNameSpecOrder (sf : SourceFile) (functionName : String)
    (targetLine : Option Nat) : Option FunctionLike :=
  (functionMatches sf functionName targetLine ++
      sf.classes.flatMap (fun c => methodMatches c functionName targetLine) ++
      sf.classes.flatMap (fun c => propertyMatches c functionName targetLine) ++
      variableMatches sf functionName targetLine).head?

/-- The order the source actually implements: per class, methods before
arrow properties, classes in declaration order. -/
def findFunctionByNamePerClassOrder (sf : SourceFile) (functionName : String)
    (targetLine : Option Nat) : Option FunctionLike :=
  (functionMatches sf functionName targetLine ++
      sf.classes.flatMap (fun c =>
        methodMatches c functionName targetLine ++
          propertyMatches c functionName targetLine) ++
      variableMatches sf functionName targetLine).head?

/-- Singleton forest. -/
def forest1 (n : AstNode) : AstForest := AstForest.cons n AstForest.nil

/-- Two-sibling forest. -/
def forest2 (a b : AstNode) : AstForest :=
  AstForest.cons a (AstForest.cons b AstForest.nil)

/-- Three-sibling forest. -/
def forest3 (a b c : AstNode) : AstForest :=
  AstForest.cons a (AstForest.cons b (AstForest.cons c AstForest.nil))

/-! ## Concrete programs used by scenario claims and witnesses -/

/-- `function main(){ helper(); }` of the C1 scenario (lines 1–3, the
call on line 2, resolving to `helper` declared at line 5 of the same
file). -/
def mainDecl : FunctionDecl :=
  ⟨some "main", 1, 3,
    forest1 (AstNode.call "helper" 2 2 (some ⟨"a.ts", some "helper", 5⟩)
      AstForest.nil)⟩

/-- `function helper(){}` of the C1 scenario (line 5, empty body). -/
def helperDecl : FunctionDecl := ⟨some "helper", 5, 5, AstForest.nil⟩

/-- The C1 scenario file `a.ts`. -/
def fileA : SourceFile :=
  ⟨"a.ts", 5, [mainDecl, helperDecl], [], [], AstForest.nil⟩

/-- The C1 scenario project. -/
def progA : Project := [fileA]

/-- A file whose top level only contains calls on lines 2 and 20
(used for the bounds claims C5 and C6). -/
def fileB : SourceFile :=
  ⟨"b.ts", 20, [], [], [],
    forest2 (AstNode.call "foo" 2 2 none AstForest.nil)
      (AstNode.call "bar" 20 20 none AstForest.nil)⟩

/-- Project for the bounds claims. -/
def progB : Project := [fileB]

/-- A file with calls on lines 2 and 20 (outside the window 5–10) and
one call on line 7 (inside it), for C6. -/
def fileC : SourceFile :=
  ⟨"c.ts", 30, [], [], [],
    forest3 (AstNode.call "foo" 2 2 none AstForest.nil)
      (AstNode.call "mid" 7 7 none AstForest.nil)
      (AstNode.call "bar" 20 20 none AstForest.nil)⟩

/-- Project for C6. -/
def progC : Project := [fileC]

/-- C7 counterexample: the first class binds `f` as an arrow-function
property (property lines 10–12, arrow lines 11–12)… -/
def classWithProp : ClassDecl :=
  ⟨[], [⟨"f", 10, 12, some ⟨InitKind.arrowFunction, 11, 12, AstForest.nil⟩⟩]⟩

/-- …and the second class declares a method `f` (lines 20–22). -/
def classWithMethod : ClassDecl := ⟨[⟨"f", 20, 22, AstForest.nil⟩], []⟩

/-- C7 counterexample file. -/
def fileD : SourceFile :=
  ⟨"d.ts", 30, [], [classWithProp, classWithMethod], [], AstForest.nil⟩

/-- An empty source file (C4 witness: no declaration named `g`). -/
def fileE : SourceFile := ⟨"e.ts", 1, [], [], [], AstForest.nil⟩

/-- Project of the empty file. -/
def progE : Project := [fileE]

/-- `function cycA(){ cycB(); }` — the mutual-recursion cycle of C2. -/
def cycADecl : FunctionDecl :=
  ⟨some "cycA", 1, 3,
    forest1 (AstNode.call "cycB" 2 2 (some ⟨"cyc.ts", some "cycB", 5⟩)
      AstForest.nil)⟩

/-- `function cycB(){ cycA(); }`. -/
def cycBDecl : FunctionDecl :=
  ⟨some "cycB", 5, 7,
    forest1 (AstNode.call "cycA" 6 6 (some ⟨"cyc.ts", some "cycA", 1⟩)
      AstForest.nil)⟩

/-- The cyclic file of C2. -/
def fileCyc : SourceFile :=
  ⟨"cyc.ts", 7, [cycADecl, cycBDecl], [], [], AstForest.nil⟩

/-- The cyclic project of C2. -/
def progCyc : Project := [fileCyc]

/-! ## Basic lemmas -/

theorem jsTruthy_some {fn : String} (h : fn ≠ "") : jsTruthy (some fn) = some fn := by
  simp [jsTruthy, String.isEmpty_iff, h]

/-- C9: the result of a top-level (non-recursive) `parseFunctionCalls`
call does not depend on the visited set left over from previous
requests — the set is cleared unconditionally at top-level entry
(line 84), so two top-level runs over the same sources and the same
fresh-id state but arbitrary prior visited sets return identical
graphs. -/
theorem topLevel_independent_of_prior_visited (prog : Project) (fuel : Nat)
    (filePath : String) (functionName : Option String)
    (startLine endLine : Option Nat) (callerNodeId : Option Nat)
    (v₁ v₂ : List String) (n : Nat) :
    (parseFunctionCalls prog fuel filePath functionName startLine endLine
        false callerNodeId ⟨v₁, n⟩).1 =
      (parseFunctionCalls prog fuel filePath functionName startLine endLine
        false callerNodeId ⟨v₂, n⟩).1 := by
  cases fuel with
  | zero => rfl
  | succ k => simp only [parseFunctionCalls, Bool.false_eq_true, if_false]

/-- C4: when a function name is given but no matching declaration is
found in the file, a top-level request returns an empty result (no
steps, no flows, null entry/exit), while a recursive expansion (which
always carries a caller node id) instead returns a result whose only
Step is a Note labelled `Unresolved: <name>` serving as both its entry
and exit id. -/
theorem unresolved_symbol_behaviour (prog : Project) (fuel : Nat)
    (filePath fn : String) (startLine endLine : Option Nat)
    (sf : SourceFile) (st : ParseState) (c : Nat)
    (hfn : fn ≠ "")
    (hsf : getSourceFile prog filePath = some sf)
    (hfind : findFunctionByName sf fn startLine = none)
    (hkey : st.visited.contains
      (visitedKeyOf filePath (some fn) startLine endLine) = false) :
    (parseFunctionCalls prog (fuel + 1) filePath (some fn) startLine endLine
        false none st).1 = emptyResult ∧
      parseFunctionCalls prog (fuel + 1) filePath (some fn) startLine endLine
          true (some c) st =
        (⟨[⟨st.nextId, "Unresolved: " ++ fn, FlowNodeType.Note, none,
              "Function " ++ fn ++ " in " ++ filePath ++
                " not found during recursive call."⟩],
            [], some st.nextId, some st.nextId⟩,
          ⟨visitedKeyOf filePath (some fn) startLine endLine :: st.visited,
            st.nextId + 1⟩) := by
  constructor
  · simp only [parseFunctionCalls, Bool.false_eq_true, if_false, parseCore,
      List.contains_nil, Bool.false_eq_true, if_false, hsf, jsTruthy_some hfn, hfind]
  · simp only [parseFunctionCalls, if_true, parseCore, hkey, Bool.false_eq_true,
      if_false, hsf, jsTruthy_some hfn, hfind]

/-- Witness for C4 at the empty file `e.ts` and name `g`. -/
theorem unresolved_symbol_behaviour_witness :
    (parseFunctionCalls progE 3 "e.ts" (some "g") none none
        false none ⟨[], 0⟩).1 = emptyResult ∧
      parseFunctionCalls progE 3 "e.ts" (some "g") none none
          true (some 7) ⟨[], 0⟩ =
        (⟨[⟨0, "Unresolved: " ++ "g", FlowNodeType.Note, none,
              "Function " ++ "g" ++ " in " ++ "e.ts" ++
                " not found during recursive call."⟩],
            [], some 0, some 0⟩,
          ⟨visitedKeyOf "e.ts" (some "g") none none :: [], 0 + 1⟩) :=
  unresolved_symbol_behaviour progE 2 "e.ts" "g" none none fileE ⟨[], 0⟩ 7
    (by decide) rfl rfl rfl

/-- With an inverted window (`endLine < startLine`) no node is ever
fully inside, so the walk processes nothing and leaves the state
untouched (well-formed spans assumed). -/
theorem walkNodes_inverted_bounds (fp : String) (a b : Nat) (hba : b < a)
    (forest : AstForest) (st : WalkSt) (hwf : spansWF forest = true) :
    walkNodes fp (some a) (some b) forest st = st := by
  induction forest, st using walkNodes.induct fp (some a) (some b) with
  | case1 st => simp [walkNodes]
  | case2 s e children rest st h1 h2 ih =>
    simp only [spansWF, Bool.and_eq_true, decide_eq_true_eq] at hwf
    rw [walkNodes]
    simp only [h1, h2, if_true]
    exact ih hwf.2
  | case3 s e children rest st h1 h2 ih₁ ih₂ =>
    simp only [spansWF, Bool.and_eq_true, decide_eq_true_eq] at hwf
    rw [walkNodes]
    simp only [h1, if_true]
    rw [if_neg h2, ih₁ hwf.1.2]
    have ih₂' := ih₂
    rw [ih₁ hwf.1.2] at ih₂'
    exact ih₂' hwf.2
  | case4 s e children rest st h1 ih₁ ih₂ =>
    exfalso
    simp only [spansWF, Bool.and_eq_true, decide_eq_true_eq] at hwf
    simp only [notFullyInside, Bool.or_eq_true, decide_eq_true_eq,
      Bool.not_eq_true] at h1
    omega
  | case5 c s e r children rest st h1 h2 ih =>
    simp only [spansWF, Bool.and_eq_true, decide_eq_true_eq] at hwf
    rw [walkNodes]
    simp only [h1, h2, if_true]
    exact ih hwf.2
  | case6 c s e r children rest st h1 h2 ih₁ ih₂ =>
    simp only [spansWF, Bool.and_eq_true, decide_eq_true_eq] at hwf
    rw [walkNodes]
    simp only [h1, if_true]
    rw [if_neg h2, ih₁ hwf.1.2]
    have ih₂' := ih₂
    rw [ih₁ hwf.1.2] at ih₂'
    exact ih₂' hwf.2
  | case7 c s e r children rest st h1 st1 hp ih =>
    exfalso
    simp only [spansWF, Bool.and_eq_true, decide_eq_true_eq] at hwf
    simp only [notFullyInside, Bool.or_eq_true, decide_eq_true_eq,
      Bool.not_eq_true] at h1
    omega
  | case8 c s e r children rest st h1 st1 hp ih₁ ih₂ =>
    exfalso
    simp only [spansWF, Bool.and_eq_true, decide_eq_true_eq] at hwf
    simp only [notFullyInside, Bool.or_eq_true, decide_eq_true_eq,
      Bool.not_eq_true] at h1
    omega

/-- C5 counterexample: a top-level request on `b.ts` with
`startLine = 10, endLine = 5` (end before start) is NOT rejected with an
empty result — the code has no such guard and synthesizes the two block
Entry/Exit Steps. -/
theorem malformed_bounds_not_rejected :
    (parseFunctionCalls progB 3 "b.ts" none (some 10) (some 5)
        false none ⟨[], 0⟩).1 ≠ emptyResult ∧
      (parseFunctionCalls progB 3 "b.ts" none (some 10) (some 5)
          false none ⟨[], 0⟩).1.nodes.length = 2 ∧
      (parseFunctionCalls progB 3 "b.ts" none (some 10) (some 5)
          false none ⟨[], 0⟩).1.entryNodeId ≠ none := by
  refine ⟨by decide, by decide, by decide⟩

/-- C5 amended: a top-level request with both bounds given and
`endLine < startLine` is not rejected before traversal; it returns the
two synthesized block Entry/Exit Steps joined by a single Entry→Exit
flow (every node of the file lies outside the inverted window, so no
call Step is created). -/
theorem malformed_bounds_block_result (prog : Project) (fuel : Nat)
    (fp : String) (sl el : Nat) (sf : SourceFile) (st : ParseState)
    (hel : el < sl)
    (hsf : getSourceFile prog fp = some sf)
    (hwf : spansWF sf.topLevelNodes = true) :
    parseFunctionCalls prog (fuel + 1) fp none (some sl) (some el)
        false none st =
      (⟨[⟨st.nextId,
            "Code Block (Lines " ++ toString sl ++ "-" ++ toString el ++ ")",
            FlowNodeType.EntryPoint, none,
            "Selected code block in " ++ basename fp⟩,
          ⟨st.nextId + 1,
            "Exit Block (Lines " ++ toString sl ++ "-" ++ toString el ++ ")",
            FlowNodeType.ExitPoint, none,
            "Exit of selected block in " ++ basename fp⟩],
          [⟨st.nextId + 2, st.nextId, st.nextId + 1, FlowEdgeType.DirectCall⟩],
          some st.nextId, some (st.nextId + 1)⟩,
        ⟨[visitedKeyOf fp none (some sl) (some el)], st.nextId + 3⟩) := by
  simp only [parseFunctionCalls, Bool.false_eq_true, if_false, parseCore,
    List.contains_nil, hsf, jsTruthy, scanScope]
  rw [walkNodes_inverted_bounds fp sl el hel sf.topLevelNodes _ hwf]
  simp only [expandPendings, finishScope, List.any_nil, Bool.not_false,
    Bool.and_true]
  rw [if_pos]
  · rfl
  · simp [bne_iff_ne]

/-- Witness for the amended C5 at the concrete project `progB`. -/
theorem malformed_bounds_block_result_witness :
    parseFunctionCalls progB 3 "b.ts" none (some 10) (some 5)
        false none ⟨[], 0⟩ =
      (⟨[⟨0, "Code Block (Lines " ++ toString 10 ++ "-" ++ toString 5 ++ ")",
            FlowNodeType.EntryPoint, none,
            "Selected code block in " ++ basename "b.ts"⟩,
          ⟨0 + 1, "Exit Block (Lines " ++ toString 10 ++ "-" ++ toString 5 ++ ")",
            FlowNodeType.ExitPoint, none,
            "Exit of selected block in " ++ basename "b.ts"⟩],
          [⟨0 + 2, 0, 0 + 1, FlowEdgeType.DirectCall⟩],
          some 0, some (0 + 1)⟩,
        ⟨[visitedKeyOf "b.ts" none (some 10) (some 5)], 0 + 3⟩) :=
  malformed_bounds_block_result progB 2 "b.ts" 10 5 fileB ⟨[], 0⟩
    (by decide) rfl (by decide)

/-- C1 counterexample: in the `a.ts` scenario
(`function main(){ helper(); }`, `function helper(){}`), the extraction
does produce the five Steps, but the claimed Flow
Exit(helper)→Exit(main) does not exist: the node labelled `Exit helper`
(id 5) has no edge to the node labelled `Exit main` (id 1, the result's
exit). -/
theorem scenario_missing_exit_to_exit_flow :
    ((parseFunctionCalls progA 5 "a.ts" (some "main") none none
        false none ⟨[], 0⟩).1.nodes.map (fun n => n.label)) =
        ["main", "Exit main", "Call: helper", "helper", "Exit helper"] ∧
      (parseFunctionCalls progA 5 "a.ts" (some "main") none none
          false none ⟨[], 0⟩).1.exitNodeId = some 1 ∧
      ¬ ∃ ed ∈ (parseFunctionCalls progA 5 "a.ts" (some "main") none none
          false none ⟨[], 0⟩).1.edges, ed.fromId = 5 ∧ ed.toId = 1 := by
  refine ⟨by decide, by decide, by decide⟩

/-- C1 amended: the scenario yields the five Steps Entry(main),
Exit(main), Function(call to helper), Entry(helper), Exit(helper) and
the Flows Entry(main)→Call(helper), Call(helper)→Entry(helper), and
Exit(helper)→Call(helper) — the stitch-back edge targets the walk's last
processed step (the call site itself), and no flow into Exit(main) is
created. -/
theorem scenario_actual_result :
    parseFunctionCalls progA 5 "a.ts" (some "main") none none
        false none ⟨[], 0⟩ =
      (⟨[⟨0, "main", FlowNodeType.EntryPoint, some ⟨"a.ts", 0, 2⟩, "Entry: main"⟩,
          ⟨1, "Exit main", FlowNodeType.ExitPoint, some ⟨"a.ts", 2, 2⟩,
            "Exit of main"⟩,
          ⟨2, "Call: helper", FlowNodeType.Function, some ⟨"a.ts", 1, 1⟩,
            "Invocation of helper"⟩,
          ⟨4, "helper", FlowNodeType.Function, some ⟨"a.ts", 4, 4⟩,
            "Function: helper"⟩,
          ⟨5, "Exit helper", FlowNodeType.ExitPoint, some ⟨"a.ts", 4, 4⟩,
            "Exit of helper"⟩],
          [⟨3, 0, 2, FlowEdgeType.DirectCall⟩,
            ⟨6, 4, 5, FlowEdgeType.DirectCall⟩,
            ⟨7, 2, 4, FlowEdgeType.DirectCall⟩,
            ⟨8, 5, 2, FlowEdgeType.DirectCall⟩],
          some 0, some 1⟩,
        ⟨["a.ts::helper", "a.ts::main"], 9⟩) := by
  decide

/-- A walk over a call-free forest creates nothing and leaves the state
untouched. -/
theorem walkNodes_callFree (fp : String) (sl? el? : Option Nat)
    (forest : AstForest) (st : WalkSt) (h : callFree forest = true) :
    walkNodes fp sl? el? forest st = st := by
  induction forest, st using walkNodes.induct fp sl? el? with
  | case1 st => rw [walkNodes]
  | case2 s e children rest st h1 h2 ih =>
    simp only [callFree, Bool.and_eq_true] at h
    rw [walkNodes]
    simp only [h1, h2, if_true]
    exact ih h.2
  | case3 s e children rest st h1 h2 ih₁ ih₂ =>
    simp only [callFree, Bool.and_eq_true] at h
    rw [walkNodes]
    simp only [h1, if_true]
    rw [if_neg h2, ih₁ h.1]
    have ih₂' := ih₂
    rw [ih₁ h.1] at ih₂'
    exact ih₂' h.2
  | case4 s e children rest st h1 ih₁ ih₂ =>
    simp only [callFree, Bool.and_eq_true] at h
    rw [walkNodes]
    rw [if_neg h1, ih₁ h.1]
    have ih₂' := ih₂
    rw [ih₁ h.1] at ih₂'
    exact ih₂' h.2
  | case5 c s e r children rest st h1 h2 ih => simp [callFree] at h
  | case6 c s e r children rest st h1 h2 ih₁ ih₂ => simp [callFree] at h
  | case7 c s e r children rest st h1 st1 hp ih => simp [callFree] at h
  | case8 c s e r children rest st h1 st1 hp ih₁ ih₂ => simp [callFree] at h

/-- C8: extracting a named function whose body contains no call
expressions yields a result with exactly one Flow: a DirectCall edge
connecting the scope's Entry Step directly to its Exit Step. -/
theorem empty_scope_single_edge (prog : Project) (fuel : Nat)
    (fp fn : String) (sf : SourceFile) (f : FunctionLike) (st : ParseState)
    (hfn : fn ≠ "")
    (hsf : getSourceFile prog fp = some sf)
    (hfind : findFunctionByName sf fn none = some f)
    (hcf : callFree f.body = true) :
    (parseFunctionCalls prog (fuel + 1) fp (some fn) none none
        false none st).1 =
      ⟨[⟨st.nextId, fn, FlowNodeType.EntryPoint,
            some (createCodeReference fp f.startLine f.endLine),
            "Entry: " ++ fn⟩,
          ⟨st.nextId + 1, "Exit " ++ fn, FlowNodeType.ExitPoint,
            some (createCodeReference fp f.endLine f.endLine),
            "Exit of " ++ fn⟩],
        [⟨st.nextId + 2, st.nextId, st.nextId + 1, FlowEdgeType.DirectCall⟩],
        some st.nextId, some (st.nextId + 1)⟩ := by
  simp only [parseFunctionCalls, Bool.false_eq_true, if_false, parseCore,
    List.contains_nil, jsTruthy_some hfn, hsf, hfind, scanScope]
  rw [walkNodes_callFree fp none none f.body _ hcf]
  simp only [expandPendings, finishScope, List.any_nil, Bool.not_false,
    Bool.and_true]
  rw [if_pos]
  · simp
  · simp [bne_iff_ne]

/-- Witness for C8: `helper` of the C1 scenario has an empty body. -/
theorem empty_scope_single_edge_witness :
    (parseFunctionCalls progA 3 "a.ts" (some "helper") none none
        false none ⟨[], 0⟩).1 =
      ⟨[⟨0, "helper", FlowNodeType.EntryPoint,
            some (createCodeReference "a.ts" 5 5), "Entry: " ++ "helper"⟩,
          ⟨0 + 1, "Exit " ++ "helper", FlowNodeType.ExitPoint,
            some (createCodeReference "a.ts" 5 5), "Exit of " ++ "helper"⟩],
        [⟨0 + 2, 0, 0 + 1, FlowEdgeType.DirectCall⟩],
        some 0, some (0 + 1)⟩ :=
  empty_scope_single_edge progA 2 "a.ts" "helper" fileA ⟨5, 5, AstForest.nil⟩
    ⟨[], 0⟩ (by decide) rfl rfl rfl

theorem find?_map_eq_head? (p : α → Bool) (f : α → β) (l : List α) :
    (l.find? p).map f = ((l.filter p).map f).head? := by
  induction l with
  | nil => rfl
  | cons a l ih =>
    by_cases h : p a = true
    · rw [List.find?_cons_of_pos l h, List.filter_cons_of_pos h]
      rfl
    · rw [List.find?_cons_of_neg l h, List.filter_cons_of_neg h]
      exact ih

theorem findSome?_eq_head?_filterMap (g : α → Option β) (l : List α) :
    l.findSome? g = (l.filterMap g).head? := by
  induction l with
  | nil => rfl
  | cons a l ih =>
    rw [List.findSome?_cons, List.filterMap_cons]
    cases h : g a with
    | none =>
      simp only [List.head?_cons]
      exact ih
    | some b => rfl

theorem findSome?_eq_head?_flatMap (g : α → Option β) (h : α → List β)
    (l : List α) (hg : ∀ a, g a = (h a).head?) :
    l.findSome? g = (l.flatMap h).head? := by
  induction l with
  | nil => rfl
  | cons a l ih =>
    rw [List.findSome?_cons, hg a]
    cases hh : h a with
    | nil => simp [hh, ih]
    | cons x xs => simp [hh]

theorem head?_some_exists {l : List β} {x : β} (h : l.head? = some x) :
    ∃ t, l = x :: t := by
  cases l with
  | nil => simp at h
  | cons a t =>
    simp at h
    exact ⟨t, by rw [h]⟩

/-- One class is searched methods-first, then arrow properties, yielding
the per-class candidate list. -/
theorem findInClass_eq_head? (c : ClassDecl) (fn : String) (tl : Option Nat) :
    findInClass c fn tl =
      (methodMatches c fn tl ++ propertyMatches c fn tl).head? := by
  have hm : (List.find? (fun m =>
        m.name == fn && lineOk m.startLine m.endLine tl) c.methods).map
          MethodDecl.toFunctionLike = (methodMatches c fn tl).head? :=
    find?_map_eq_head? _ _ _
  rw [findInClass]
  cases hfound : List.find? (fun m =>
      m.name == fn && lineOk m.startLine m.endLine tl) c.methods with
  | some m =>
    rw [hfound] at hm
    obtain ⟨t, ht⟩ := head?_some_exists hm.symm
    rw [ht]
    simp
  | none =>
    rw [hfound] at hm
    have hnil : methodMatches c fn tl = [] := List.head?_eq_none_iff.mp hm.symm
    rw [hnil, List.nil_append]
    exact findSome?_eq_head?_filterMap _ _

/-- C7 amended: `findFunctionByName` realises the first match of the
ordered candidate list: top-level named functions, then — class by
class in declaration order — the class's methods followed by its
arrow-function properties, then top-level variable bindings whose
initializer is an arrow function or function expression; an anchor line,
when supplied, filters each candidate by an inclusive span check
(`lineOk`/`isNodeAroundLine`). -/
theorem findFunctionByName_per_class_order (sf : SourceFile) (fn : String)
    (tl : Option Nat) :
    findFunctionByName sf fn tl = findFunctionByNamePerClassOrder sf fn tl := by
  rw [findFunctionByName, findFunctionByNamePerClassOrder, List.append_assoc]
  have hf : (List.find? (fun f =>
        f.name == some fn && lineOk f.startLine f.endLine tl) sf.functions).map
          FunctionDecl.toFunctionLike = (functionMatches sf fn tl).head? :=
    find?_map_eq_head? _ _ _
  cases hfound : List.find? (fun f =>
      f.name == some fn && lineOk f.startLine f.endLine tl) sf.functions with
  | some f =>
    rw [hfound] at hf
    obtain ⟨t, ht⟩ := head?_some_exists hf.symm
    rw [ht]
    simp
  | none =>
    rw [hfound] at hf
    have hnil : functionMatches sf fn tl = [] := List.head?_eq_none_iff.mp hf.symm
    rw [hnil, List.nil_append]
    have hc : findInClasses sf.classes fn tl =
        (sf.classes.flatMap (fun c =>
          methodMatches c fn tl ++ propertyMatches c fn tl)).head? :=
      findSome?_eq_head?_flatMap _ _ _ (fun c => findInClass_eq_head? c fn tl)
    cases hcf : findInClasses sf.classes fn tl with
    | some fl =>
      rw [hcf] at hc
      obtain ⟨t, ht⟩ := head?_some_exists hc.symm
      rw [ht]
      simp
    | none =>
      rw [hcf] at hc
      have hnil2 : sf.classes.flatMap (fun c =>
          methodMatches c fn tl ++ propertyMatches c fn tl) = [] :=
        List.head?_eq_none_iff.mp hc.symm
      rw [hnil2, List.nil_append]
      exact findSome?_eq_head?_filterMap _ _

/-- C7 counterexample: on `d.ts` (first class binds `f` as an arrow
property at lines 11–12, second class declares a method `f` at lines
20–22), the source's search and the spec's claimed kind-by-kind order
disagree: the source returns the first class's arrow property, the
claimed order would return the second class's method. -/
theorem findFunctionByName_order_differs :
    findFunctionByName fileD "f" none ≠
      findFunctionByNameSpecOrder fileD "f" none := by
  intro h
  have h2 := congrArg (Option.map (fun fl : FunctionLike => fl.startLine)) h
  revert h2
  decide

theorem processCall_nodes (fp c : String) (s e : Nat)
    (r : Option CallTarget) (st : WalkSt) :
    (processCall fp c s e r st).1.nodes =
      st.nodes ++ [callSiteNodeOf fp c st.nextId s e] := by
  cases r with
  | none => rfl
  | some ct =>
    simp only [processCall]
    by_cases h : strIncludes ct.filePath "node_modules" = true
    · rw [if_pos h]
      rfl
    · rw [if_neg h]
      rfl

theorem windowOk_of_inside (sl? el? : Option Nat) (s e : Nat)
    (h : ¬ notFullyInside sl? el? s e = true) : windowOk sl? el? s e := by
  cases sl? with
  | none => cases el? <;> trivial
  | some a =>
    cases el? with
    | none => trivial
    | some b =>
      simp only [notFullyInside, Bool.or_eq_true, decide_eq_true_eq,
        not_or, not_lt] at h
      simp only [windowOk]
      omega

/-- Every Step a walk adds to the state is a call-site Step whose span
passed the window check. -/
theorem walkNodes_added_nodes (fp : String) (sl? el? : Option Nat)
    (forest : AstForest) (st : WalkSt) :
    ∀ n ∈ (walkNodes fp sl? el? forest st).nodes,
      n ∈ st.nodes ∨
        ∃ i c s e, n = callSiteNodeOf fp c i s e ∧ windowOk sl? el? s e := by
  induction forest, st using walkNodes.induct fp sl? el? with
  | case1 st =>
    intro n hn
    rw [walkNodes] at hn
    exact Or.inl hn
  | case2 s e children rest st h1 h2 ih =>
    intro n hn
    rw [walkNodes] at hn
    simp only [h1, h2, if_true] at hn
    exact ih n hn
  | case3 s e children rest st h1 h2 ih₁ ih₂ =>
    intro n hn
    rw [walkNodes] at hn
    simp only [h1, if_true] at hn
    rw [if_neg h2] at hn
    rcases ih₂ n hn with h | h
    · exact ih₁ n h
    · exact Or.inr h
  | case4 s e children rest st h1 ih₁ ih₂ =>
    intro n hn
    rw [walkNodes] at hn
    rw [if_neg h1] at hn
    rcases ih₂ n hn with h | h
    · exact ih₁ n h
    · exact Or.inr h
  | case5 c s e r children rest st h1 h2 ih =>
    intro n hn
    rw [walkNodes] at hn
    simp only [h1, h2, if_true] at hn
    exact ih n hn
  | case6 c s e r children rest st h1 h2 ih₁ ih₂ =>
    intro n hn
    rw [walkNodes] at hn
    simp only [h1, if_true] at hn
    rw [if_neg h2] at hn
    rcases ih₂ n hn with h | h
    · exact ih₁ n h
    · exact Or.inr h
  | case7 c s e r children rest st h1 st1 hp ih =>
    intro n hn
    rw [walkNodes] at hn
    rw [if_neg h1] at hn
    simp only [hp] at hn
    rcases ih n hn with h | h
    · have hmon := processCall_nodes fp c s e r st
      rw [hp] at hmon
      rw [hmon] at h
      rcases List.mem_append.mp h with h' | h'
      · exact Or.inl h'
      · refine Or.inr ⟨st.nextId, c, s, e, ?_, windowOk_of_inside _ _ _ _ h1⟩
        simpa using h'
    · exact Or.inr h
  | case8 c s e r children rest st h1 st1 hp ih₁ ih₂ =>
    intro n hn
    rw [walkNodes] at hn
    rw [if_neg h1] at hn
    simp only [hp] at hn
    have hmon := processCall_nodes fp c s e r st
    rw [hp] at hmon
    rcases ih₂ n hn with h | h
    · rcases ih₁ n h with h' | h'
      · rw [hmon] at h'
        rcases List.mem_append.mp h' with h'' | h''
        · exact Or.inl h''
        · refine Or.inr ⟨st.nextId, c, s, e, ?_, windowOk_of_inside _ _ _ _ h1⟩
          simpa using h''
      · exact Or.inr h'
    · exact Or.inr h

/-- C6: bounded by a line window, (a) a subtree lying entirely outside
the window is pruned without being descended into, (b) every Step the
walk creates is a call-site Step whose span lies inside the window — so
no Function Step is ever created for a call strictly outside it — and
(c) concretely, extracting lines 5–10 of `c.ts` (calls at lines 2, 7 and
20) creates a Step only for the call at line 7. -/
theorem bounded_walk_prunes_and_restricts (fp : String) (a b : Nat) :
    (∀ (head : AstNode) (rest : AstForest) (st : WalkSt),
        notFullyInside (some a) (some b) head.nodeStart head.nodeEnd = true →
        entirelyOutside (some a) (some b) head.nodeStart head.nodeEnd = true →
        walkNodes fp (some a) (some b) (AstForest.cons head rest) st =
          walkNodes fp (some a) (some b) rest st) ∧
    (∀ (forest : AstForest) (st : WalkSt),
        ∀ n ∈ (walkNodes fp (some a) (some b) forest st).nodes,
          n ∈ st.nodes ∨
            ∃ i c s e, n = callSiteNodeOf fp c i s e ∧ a ≤ s ∧ e ≤ b) ∧
    (parseFunctionCalls progC 3 "c.ts" none (some 5) (some 10) false none
        ⟨[], 0⟩).1.nodes.map (fun n => n.label) =
      ["Code Block (Lines 5-10)", "Exit Block (Lines 5-10)", "Call: mid"] := by
  refine ⟨?_, ?_, by decide⟩
  · intro head rest st h1 h2
    cases head with
    | call c s e r children =>
      rw [walkNodes]
      simp only [AstNode.nodeStart, AstNode.nodeEnd] at h1 h2
      simp only [h1, h2, if_true]
    | plain s e children =>
      rw [walkNodes]
      simp only [AstNode.nodeStart, AstNode.nodeEnd] at h1 h2
      simp only [h1, h2, if_true]
  · intro forest st n hn
    rcases walkNodes_added_nodes fp (some a) (some b) forest st n hn with h | h
    · exact Or.inl h
    · obtain ⟨i, c, s, e, hne, hw⟩ := h
      simp only [windowOk] at hw
      exact Or.inr ⟨i, c, s, e, hne, hw⟩

/-- Witness for C6: the call at line 20 of `b.ts` is strictly outside
the window 5–10 and is pruned; and the characterization applied to the
walk of `b.ts`'s forest shows each surviving node is initial or an
in-window call Step. -/
theorem bounded_walk_prunes_and_restricts_witness :
    walkNodes "b.ts" (some 5) (some 10)
        (AstForest.cons (AstNode.call "bar" 20 20 none AstForest.nil)
          AstForest.nil) ⟨[], [], 0, [], 1⟩ =
      walkNodes "b.ts" (some 5) (some 10) AstForest.nil ⟨[], [], 0, [], 1⟩ :=
  (bounded_walk_prunes_and_restricts "b.ts" 5 10).1
    (AstNode.call "bar" 20 20 none AstForest.nil) AstForest.nil
    ⟨[], [], 0, [], 1⟩ (by decide) (by decide)

theorem finishScope_nodes (entryId exitId : Nat) (nodes : List FlowNode)
    (edges : List FlowEdge) (wLast : Nat) (st : ParseState) :
    (finishScope entryId exitId nodes edges wLast st).1.nodes = nodes := by
  rw [finishScope]
  by_cases h1 : ((wLast != exitId) && !(edges.any fun ed => ed.fromId == wLast)) = true
  · rw [if_pos h1]
  · rw [if_neg h1]
    by_cases h2 : ((wLast == entryId) && (entryId != exitId) &&
        decide (nodes.length ≤ 2)) = true
    · rw [if_pos h2]
    · rw [if_neg h2]

theorem finishScope_ids (entryId exitId : Nat) (nodes : List FlowNode)
    (edges : List FlowEdge) (wLast : Nat) (st : ParseState) :
    (finishScope entryId exitId nodes edges wLast st).1.entryNodeId = some entryId ∧
      (finishScope entryId exitId nodes edges wLast st).1.exitNodeId = some exitId := by
  rw [finishScope]
  by_cases h1 : ((wLast != exitId) && !(edges.any fun ed => ed.fromId == wLast)) = true
  · rw [if_pos h1]; exact ⟨rfl, rfl⟩
  · rw [if_neg h1]
    by_cases h2 : ((wLast == entryId) && (entryId != exitId) &&
        decide (nodes.length ≤ 2)) = true
    · rw [if_pos h2]; exact ⟨rfl, rfl⟩
    · rw [if_neg h2]; exact ⟨rfl, rfl⟩

/-- The walk only appends to the node list. -/
theorem walkNodes_nodes_prefix (fp : String) (sl? el? : Option Nat)
    (forest : AstForest) (st : WalkSt) :
    ∃ l, (walkNodes fp sl? el? forest st).nodes = st.nodes ++ l := by
  induction forest, st using walkNodes.induct fp sl? el? with
  | case1 st => exact ⟨[], by rw [walkNodes]; simp⟩
  | case2 s e children rest st h1 h2 ih =>
    obtain ⟨l, hl⟩ := ih
    exact ⟨l, by rw [walkNodes]; simp only [h1, h2, if_true]; exact hl⟩
  | case3 s e children rest st h1 h2 ih₁ ih₂ =>
    obtain ⟨l₁, hl₁⟩ := ih₁
    obtain ⟨l₂, hl₂⟩ := ih₂
    refine ⟨l₁ ++ l₂, ?_⟩
    rw [walkNodes]
    simp only [h1, if_true]
    rw [if_neg h2, hl₂, hl₁, List.append_assoc]
  | case4 s e children rest st h1 ih₁ ih₂ =>
    obtain ⟨l₁, hl₁⟩ := ih₁
    obtain ⟨l₂, hl₂⟩ := ih₂
    refine ⟨l₁ ++ l₂, ?_⟩
    rw [walkNodes]
    rw [if_neg h1, hl₂, hl₁, List.append_assoc]
  | case5 c s e r children rest st h1 h2 ih =>
    obtain ⟨l, hl⟩ := ih
    exact ⟨l, by rw [walkNodes]; simp only [h1, h2, if_true]; exact hl⟩
  | case6 c s e r children rest st h1 h2 ih₁ ih₂ =>
    obtain ⟨l₁, hl₁⟩ := ih₁
    obtain ⟨l₂, hl₂⟩ := ih₂
    refine ⟨l₁ ++ l₂, ?_⟩
    rw [walkNodes]
    simp only [h1, if_true]
    rw [if_neg h2, hl₂, hl₁, List.append_assoc]
  | case7 c s e r children rest st h1 st1 hp ih =>
    obtain ⟨l, hl⟩ := ih
    refine ⟨callSiteNodeOf fp c st.nextId s e :: l, ?_⟩
    rw [walkNodes]
    rw [if_neg h1]
    simp only [hp]
    rw [hl]
    have := processCall_nodes fp c s e r st
    rw [hp] at this
    rw [this, List.append_assoc]
    rfl
  | case8 c s e r children rest st h1 st1 hp ih₁ ih₂ =>
    obtain ⟨l₁, hl₁⟩ := ih₁
    obtain ⟨l₂, hl₂⟩ := ih₂
    refine ⟨callSiteNodeOf fp c st.nextId s e :: (l₁ ++ l₂), ?_⟩
    rw [walkNodes]
    rw [if_neg h1]
    simp only [hp]
    rw [hl₂, hl₁]
    have := processCall_nodes fp c s e r st
    rw [hp] at this
    rw [this, List.append_assoc, List.append_assoc]
    rfl

/-- The expansion stage only appends to the node list, and everything it
appends comes from a recursive result. -/
theorem expandPendings_nodes (p : RecParse) (wLast : Nat) (ps : List Pending) :
    ∀ (nodes : List FlowNode) (edges : List FlowEdge) (st : ParseState),
      ∃ l, (expandPendings p wLast ps nodes edges st).1 = nodes ++ l ∧
        ∀ n ∈ l, ∃ fp' fn' sl' cal' st',
          n ∈ (p fp' (some fn') (some sl') none true (some cal') st').1.nodes := by
  induction ps with
  | nil =>
    intro nodes edges st
    exact ⟨[], by rw [expandPendings]; simp, by simp⟩
  | cons pd rest ih =>
    intro nodes edges st
    rw [expandPendings]
    split
    · split
      · -- entryNodeId = some childEntry
        dsimp only
        split
        · -- exitNodeId = some childExit
          split
          · obtain ⟨l, hl, hmem⟩ := ih _ _ _
            refine ⟨(p pd.target.filePath (some (targetNameOf pd.target))
                (some pd.target.startLine) none true (some pd.callSiteId)
                st).1.nodes ++ l, ?_, ?_⟩
            · rw [hl, List.append_assoc]
            · intro n hn
              rcases List.mem_append.mp hn with h | h
              · exact ⟨_, _, _, _, _, h⟩
              · exact hmem n h
          · obtain ⟨l, hl, hmem⟩ := ih _ _ _
            refine ⟨(p pd.target.filePath (some (targetNameOf pd.target))
                (some pd.target.startLine) none true (some pd.callSiteId)
                st).1.nodes ++ l, ?_, ?_⟩
            · rw [hl, List.append_assoc]
            · intro n hn
              rcases List.mem_append.mp hn with h | h
              · exact ⟨_, _, _, _, _, h⟩
              · exact hmem n h
        · -- exitNodeId = none
          obtain ⟨l, hl, hmem⟩ := ih _ _ _
          refine ⟨(p pd.target.filePath (some (targetNameOf pd.target))
              (some pd.target.startLine) none true (some pd.callSiteId)
              st).1.nodes ++ l, ?_, ?_⟩
          · rw [hl, List.append_assoc]
          · intro n hn
            rcases List.mem_append.mp hn with h | h
            · exact ⟨_, _, _, _, _, h⟩
            · exact hmem n h
      · -- entryNodeId = none
        exact ih _ _ _
    · -- nodes empty
      exact ih _ _ _

/-- Provenance of the nodes of a scanned scope: the synthesized boundary
nodes, the walk's call-site Steps, or nodes of a recursive result. -/
theorem scanScope_nodes (p : RecParse) (fp : String) (sl? el? : Option Nat)
    (forest : AstForest) (entryId exitId : Nat) (nodes0 : List FlowNode)
    (st : ParseState) :
    ∀ n ∈ (scanScope p fp sl? el? forest entryId exitId nodes0 st).1.nodes,
      n ∈ nodes0 ∨ (∃ i c s e, n = callSiteNodeOf fp c i s e) ∨
        (∃ fp' fn' sl' cal' st',
          n ∈ (p fp' (some fn') (some sl') none true (some cal') st').1.nodes) := by
  intro n hn
  rw [scanScope] at hn
  rw [finishScope_nodes] at hn
  obtain ⟨l, hl, hmem⟩ := expandPendings_nodes p
    (walkNodes fp sl? el? forest ⟨nodes0, [], entryId, [], st.nextId⟩).lastId
    (walkNodes fp sl? el? forest ⟨nodes0, [], entryId, [], st.nextId⟩).pendings
    (walkNodes fp sl? el? forest ⟨nodes0, [], entryId, [], st.nextId⟩).nodes
    (walkNodes fp sl? el? forest ⟨nodes0, [], entryId, [], st.nextId⟩).edges
    ⟨st.visited, (walkNodes fp sl? el? forest ⟨nodes0, [], entryId, [], st.nextId⟩).nextId⟩
  rw [hl] at hn
  rcases List.mem_append.mp hn with h | h
  · rcases walkNodes_added_nodes fp sl? el? forest
        ⟨nodes0, [], entryId, [], st.nextId⟩ n h with h' | h'
    · exact Or.inl h'
    · obtain ⟨i, c, s, e, hne, _⟩ := h'
      exact Or.inr (Or.inl ⟨i, c, s, e, hne⟩)
  · exact Or.inr (Or.inr (hmem n h))

/-- A scanned scope's node list extends the synthesized boundary
nodes. -/
theorem scanScope_nodes_prefix (p : RecParse) (fp : String)
    (sl? el? : Option Nat) (forest : AstForest) (entryId exitId : Nat)
    (nodes0 : List FlowNode) (st : ParseState) :
    ∃ l, (scanScope p fp sl? el? forest entryId exitId nodes0 st).1.nodes =
      nodes0 ++ l := by
  rw [scanScope, finishScope_nodes]
  obtain ⟨l₁, hl₁⟩ := walkNodes_nodes_prefix fp sl? el? forest
    ⟨nodes0, [], entryId, [], st.nextId⟩
  obtain ⟨l₂, hl₂, _⟩ := expandPendings_nodes p
    (walkNodes fp sl? el? forest ⟨nodes0, [], entryId, [], st.nextId⟩).lastId
    (walkNodes fp sl? el? forest ⟨nodes0, [], entryId, [], st.nextId⟩).pendings
    (walkNodes fp sl? el? forest ⟨nodes0, [], entryId, [], st.nextId⟩).nodes
    (walkNodes fp sl? el? forest ⟨nodes0, [], entryId, [], st.nextId⟩).edges
    ⟨st.visited, (walkNodes fp sl? el? forest ⟨nodes0, [], entryId, [], st.nextId⟩).nextId⟩
  rw [hl₂, hl₁, List.append_assoc]
  exact ⟨l₁ ++ l₂, rfl⟩

/-- A scanned scope reports its synthesized boundary ids. -/
theorem scanScope_ids (p : RecParse) (fp : String) (sl? el? : Option Nat)
    (forest : AstForest) (entryId exitId : Nat) (nodes0 : List FlowNode)
    (st : ParseState) :
    (scanScope p fp sl? el? forest entryId exitId nodes0 st).1.entryNodeId =
        some entryId ∧
      (scanScope p fp sl? el? forest entryId exitId nodes0 st).1.exitNodeId =
        some exitId := by
  rw [scanScope]
  exact finishScope_ids _ _ _ _ _ _

/-- Core step of C10(a): with a recursion that never produces an
EntryPoint Step, `parseCore` in recursive mode never does either. -/
theorem parseCore_no_entrypoint (prog : Project) (p : RecParse)
    (hp : ∀ fp fn? sl el cal st,
      ∀ n ∈ (p fp fn? sl el true cal st).1.nodes,
        n.type ≠ FlowNodeType.EntryPoint)
    (fp : String) (fn? : Option String) (sl el : Option Nat)
    (cal : Option Nat) (st : ParseState) :
    ∀ n ∈ (parseCore prog p fp fn? sl el true cal st).1.nodes,
      n.type ≠ FlowNodeType.EntryPoint := by
  intro n hn
  rw [parseCore] at hn
  split at hn
  · simp [emptyResult] at hn
  · dsimp only at hn
    split at hn
    · simp [emptyResult] at hn
    · split at hn
      · -- functionName truthy
        split at hn
        · -- found: scanScope with Function-typed entry
          rcases scanScope_nodes _ _ _ _ _ _ _ _ _ n hn with h | h | h
          · simp only [List.mem_cons, List.not_mem_nil, or_false] at h
            rcases h with h | h
            · rw [h]; simp
            · rw [h]; simp
          · obtain ⟨i, c, s, e, hne⟩ := h
            rw [hne, callSiteNodeOf]
            simp
          · obtain ⟨fp', fn', sl', cal', st', h'⟩ := h
            exact hp fp' (some fn') (some sl') none (some cal') st' n h'
        · -- not found
          split at hn
          · simp at hn
            rw [hn]
            simp
          · simp [emptyResult] at hn
      · -- functionName falsy: recursive mode returns empty in both branches
        split at hn
        · simp [emptyResult] at hn
        · simp [emptyResult] at hn

/-- C10(a) by fuel induction: a recursive `parseFunctionCalls` result
never contains an EntryPoint Step. -/
theorem parse_no_entrypoint (prog : Project) : ∀ (fuel : Nat) (fp : String)
    (fn? : Option String) (sl el : Option Nat) (cal : Option Nat)
    (st : ParseState),
    ∀ n ∈ (parseFunctionCalls prog fuel fp fn? sl el true cal st).1.nodes,
      n.type ≠ FlowNodeType.EntryPoint := by
  intro fuel
  induction fuel with
  | zero =>
    intro fp fn? sl el cal st n hn
    simp [parseFunctionCalls, emptyResult] at hn
  | succ k ih =>
    intro fp fn? sl el cal st n hn
    rw [parseFunctionCalls] at hn
    exact parseCore_no_entrypoint prog (parseFunctionCalls prog k)
      (fun fp' fn?' sl' el' cal' st' => ih fp' fn?' sl' el' cal' st')
      fp fn? sl el cal _ n hn

/-- C10: (a) a Step of kind EntryPoint is only ever created for the
top-level scope of a request — no recursive expansion's result contains
one — and (b) for every recursive expansion of a resolved callee, the
synthesized entry Step of the callee's scope has kind Function (the
synthesized exit Step has kind ExitPoint), and the two head the scope's
node list with its reported entry/exit ids. -/
theorem recursive_entry_kinds (prog : Project) :
    (∀ (fuel : Nat) (fp : String) (fn? : Option String) (sl el : Option Nat)
        (cal : Option Nat) (st : ParseState),
        ∀ n ∈ (parseFunctionCalls prog fuel fp fn? sl el true cal st).1.nodes,
          n.type ≠ FlowNodeType.EntryPoint) ∧
    (∀ (fuel : Nat) (fp fn : String) (sl el : Option Nat) (c : Nat)
        (st : ParseState) (sf : SourceFile) (f : FunctionLike),
        fn ≠ "" →
        st.visited.contains (visitedKeyOf fp (some fn) sl el) = false →
        getSourceFile prog fp = some sf →
        findFunctionByName sf fn sl = some f →
        ∃ rest,
          (parseFunctionCalls prog (fuel + 1) fp (some fn) sl el true (some c)
              st).1.nodes =
            ⟨st.nextId, fn, FlowNodeType.Function,
                some (createCodeReference fp f.startLine f.endLine),
                "Function: " ++ fn⟩ ::
              ⟨st.nextId + 1, "Exit " ++ fn, FlowNodeType.ExitPoint,
                some (createCodeReference fp f.endLine f.endLine),
                "Exit of " ++ fn⟩ :: rest ∧
          (parseFunctionCalls prog (fuel + 1) fp (some fn) sl el true (some c)
              st).1.entryNodeId = some st.nextId ∧
          (parseFunctionCalls prog (fuel + 1) fp (some fn) sl el true (some c)
              st).1.exitNodeId = some (st.nextId + 1)) := by
  constructor
  · exact fun fuel => parse_no_entrypoint prog fuel
  · intro fuel fp fn sl el c st sf f hfn hkey hsf hfind
    rw [parseFunctionCalls]
    simp only [if_true]
    rw [parseCore]
    rw [if_neg (by rw [hkey]; exact Bool.false_ne_true)]
    simp only [hsf, jsTruthy_some hfn, hfind]
    obtain ⟨l, hl⟩ := scanScope_nodes_prefix (parseFunctionCalls prog fuel) fp
      sl el f.body st.nextId (st.nextId + 1)
      [⟨st.nextId, fn,
          (if true = true then FlowNodeType.Function else FlowNodeType.EntryPoint),
          some (createCodeReference fp f.startLine f.endLine),
          (if true = true then "Function" else "Entry") ++ ": " ++ fn⟩,
        ⟨st.nextId + 1, "Exit " ++ fn, FlowNodeType.ExitPoint,
          some (createCodeReference fp f.endLine f.endLine), "Exit of " ++ fn⟩]
      ⟨visitedKeyOf fp (some fn) sl el :: st.visited, st.nextId + 2⟩
    refine ⟨l, ?_, ?_, ?_⟩
    · simp only at hl
      rw [hl]
      simp
    · exact (scanScope_ids _ _ _ _ _ _ _ _ _).1
    · exact (scanScope_ids _ _ _ _ _ _ _ _ _).2

/-- Witness for C10(b) (and hypothesis discharge for C10(a) is not
needed): the recursive expansion of `helper` in the C1 scenario has a
Function-kind entry and an ExitPoint-kind exit. -/
theorem recursive_entry_kinds_witness :
    ∃ rest,
      (parseFunctionCalls progA 3 "a.ts" (some "helper") (some 5) none true
          (some 99) ⟨["a.ts::main"], 4⟩).1.nodes =
        ⟨4, "helper", FlowNodeType.Function,
            some (createCodeReference "a.ts" 5 5), "Function: " ++ "helper"⟩ ::
          ⟨4 + 1, "Exit " ++ "helper", FlowNodeType.ExitPoint,
            some (createCodeReference "a.ts" 5 5), "Exit of " ++ "helper"⟩ :: rest ∧
      (parseFunctionCalls progA 3 "a.ts" (some "helper") (some 5) none true
          (some 99) ⟨["a.ts::main"], 4⟩).1.entryNodeId = some 4 ∧
      (parseFunctionCalls progA 3 "a.ts" (some "helper") (some 5) none true
          (some 99) ⟨["a.ts::main"], 4⟩).1.exitNodeId = some (4 + 1) :=
  (recursive_entry_kinds progA).2 2 "a.ts" "helper" (some 5) none 99
    ⟨["a.ts::main"], 4⟩ fileA ⟨5, 5, AstForest.nil⟩
    (by decide) (by decide) rfl rfl

theorem hasId_append_left {ns : List FlowNode} {i : Nat} (l : List FlowNode)
    (h : hasId ns i) : hasId (ns ++ l) i := by
  obtain ⟨n, hn, hi⟩ := h
  exact ⟨n, List.mem_append.mpr (Or.inl hn), hi⟩

theorem hasId_append_right {l : List FlowNode} {i : Nat} (ns : List FlowNode)
    (h : hasId l i) : hasId (ns ++ l) i := by
  obtain ⟨n, hn, hi⟩ := h
  exact ⟨n, List.mem_append.mpr (Or.inr hn), hi⟩

theorem processCall_edges (fp c : String) (s e : Nat)
    (r : Option CallTarget) (st : WalkSt) :
    (processCall fp c s e r st).1.edges = st.edges ++
      [⟨st.nextId + 1, st.lastId, st.nextId, FlowEdgeType.DirectCall⟩] := by
  cases r with
  | none => rfl
  | some ct =>
    simp only [processCall]
    by_cases h : strIncludes ct.filePath "node_modules" = true
    · rw [if_pos h]
    · rw [if_neg h]

theorem processCall_lastId (fp c : String) (s e : Nat)
    (r : Option CallTarget) (st : WalkSt) :
    (processCall fp c s e r st).1.lastId = st.nextId := by
  cases r with
  | none => rfl
  | some ct =>
    simp only [processCall]
    by_cases h : strIncludes ct.filePath "node_modules" = true
    · rw [if_pos h]
    · rw [if_neg h]

theorem processCall_pendings (fp c : String) (s e : Nat)
    (r : Option CallTarget) (st : WalkSt) :
    ∀ pd ∈ (processCall fp c s e r st).1.pendings,
      pd ∈ st.pendings ∨ pd.callSiteId = st.nextId := by
  intro pd hpd
  cases r with
  | none => exact Or.inl hpd
  | some ct =>
    simp only [processCall] at hpd
    by_cases h : strIncludes ct.filePath "node_modules" = true
    · rw [if_pos h] at hpd
      exact Or.inl hpd
    · rw [if_neg h] at hpd
      simp only at hpd
      rcases List.mem_append.mp hpd with h' | h'
      · exact Or.inl h'
      · simp only [List.mem_singleton] at h'
        subst h'
        exact Or.inr rfl

/-- The walk preserves the closure invariant: edges reference existing
nodes, the last-processed id and every scheduled call site exist. -/
theorem walkNodes_closed (fp : String) (sl? el? : Option Nat)
    (forest : AstForest) (st : WalkSt)
    (h1 : EdgesClosed st.nodes st.edges) (h2 : hasId st.nodes st.lastId)
    (h3 : ∀ pd ∈ st.pendings, hasId st.nodes pd.callSiteId) :
    EdgesClosed (walkNodes fp sl? el? forest st).nodes
        (walkNodes fp sl? el? forest st).edges ∧
      hasId (walkNodes fp sl? el? forest st).nodes
        (walkNodes fp sl? el? forest st).lastId ∧
      ∀ pd ∈ (walkNodes fp sl? el? forest st).pendings,
        hasId (walkNodes fp sl? el? forest st).nodes pd.callSiteId := by
  induction forest, st using walkNodes.induct fp sl? el? with
  | case1 st =>
    rw [walkNodes]
    exact ⟨h1, h2, h3⟩
  | case2 s e children rest st ha hb ih =>
    rw [walkNodes]
    simp only [ha, hb, if_true]
    exact ih h1 h2 h3
  | case3 s e children rest st ha hb ih₁ ih₂ =>
    rw [walkNodes]
    simp only [ha, if_true]
    rw [if_neg hb]
    obtain ⟨g1, g2, g3⟩ := ih₁ h1 h2 h3
    exact ih₂ g1 g2 g3
  | case4 s e children rest st ha ih₁ ih₂ =>
    rw [walkNodes]
    rw [if_neg ha]
    obtain ⟨g1, g2, g3⟩ := ih₁ h1 h2 h3
    exact ih₂ g1 g2 g3
  | case5 c s e r children rest st ha hb ih =>
    rw [walkNodes]
    simp only [ha, hb, if_true]
    exact ih h1 h2 h3
  | case6 c s e r children rest st ha hb ih₁ ih₂ =>
    rw [walkNodes]
    simp only [ha, if_true]
    rw [if_neg hb]
    obtain ⟨g1, g2, g3⟩ := ih₁ h1 h2 h3
    exact ih₂ g1 g2 g3
  | case7 c s e r children rest st ha st1 hp ih =>
    rw [walkNodes]
    rw [if_neg ha]
    simp only [hp]
    have hnodes := processCall_nodes fp c s e r st
    have hedges := processCall_edges fp c s e r st
    have hlast := processCall_lastId fp c s e r st
    have hpend := processCall_pendings fp c s e r st
    rw [hp] at hnodes hedges hlast hpend
    refine ih ?_ ?_ ?_
    · intro ed hed
      rw [hedges] at hed
      rw [hnodes]
      rcases List.mem_append.mp hed with h' | h'
      · obtain ⟨c1, c2⟩ := h1 ed h'
        exact ⟨hasId_append_left _ c1, hasId_append_left _ c2⟩
      · simp only [List.mem_singleton] at h'
        subst h'
        refine ⟨hasId_append_left _ h2, hasId_append_right _ ?_⟩
        exact ⟨callSiteNodeOf fp c st.nextId s e, List.mem_singleton.mpr rfl, rfl⟩
    · rw [hnodes, hlast]
      exact hasId_append_right _
        ⟨callSiteNodeOf fp c st.nextId s e, List.mem_singleton.mpr rfl, rfl⟩
    · intro pd hpd
      rw [hnodes]
      rcases hpend pd hpd with h' | h'
      · exact hasId_append_left _ (h3 pd h')
      · rw [h']
        exact hasId_append_right _
          ⟨callSiteNodeOf fp c st.nextId s e, List.mem_singleton.mpr rfl, rfl⟩
  | case8 c s e r children rest st ha st1 hp ih₁ ih₂ =>
    rw [walkNodes]
    rw [if_neg ha]
    simp only [hp]
    have hnodes := processCall_nodes fp c s e r st
    have hedges := processCall_edges fp c s e r st
    have hlast := processCall_lastId fp c s e r st
    have hpend := processCall_pendings fp c s e r st
    rw [hp] at hnodes hedges hlast hpend
    have base1 : EdgesClosed st1.nodes st1.edges := by
      intro ed hed
      rw [hedges] at hed
      rw [hnodes]
      rcases List.mem_append.mp hed with h' | h'
      · obtain ⟨c1, c2⟩ := h1 ed h'
        exact ⟨hasId_append_left _ c1, hasId_append_left _ c2⟩
      · simp only [List.mem_singleton] at h'
        subst h'
        refine ⟨hasId_append_left _ h2, hasId_append_right _ ?_⟩
        exact ⟨callSiteNodeOf fp c st.nextId s e, List.mem_singleton.mpr rfl, rfl⟩
    have base2 : hasId st1.nodes st1.lastId := by
      rw [hnodes, hlast]
      exact hasId_append_right _
        ⟨callSiteNodeOf fp c st.nextId s e, List.mem_singleton.mpr rfl, rfl⟩
    have base3 : ∀ pd ∈ st1.pendings, hasId st1.nodes pd.callSiteId := by
      intro pd hpd
      rw [hnodes]
      rcases hpend pd hpd with h' | h'
      · exact hasId_append_left _ (h3 pd h')
      · rw [h']
        exact hasId_append_right _
          ⟨callSiteNodeOf fp c st.nextId s e, List.mem_singleton.mpr rfl, rfl⟩
    obtain ⟨g1, g2, g3⟩ := ih₁ base1 base2 base3
    exact ih₂ g1 g2 g3

/-- The expansion stage preserves edge closure, assuming every recursive
result is itself closed. -/
theorem expandPendings_closed (p : RecParse)
    (hp : ∀ fp' fn' sl' cal' st',
      ResultClosed (p fp' (some fn') (some sl') none true (some cal') st').1)
    (wLast : Nat) (ps : List Pending) :
    ∀ (nodes : List FlowNode) (edges : List FlowEdge) (st : ParseState),
      EdgesClosed nodes edges → hasId nodes wLast →
      (∀ pd ∈ ps, hasId nodes pd.callSiteId) →
      EdgesClosed (expandPendings p wLast ps nodes edges st).1
        (expandPendings p wLast ps nodes edges st).2.1 := by
  induction ps with
  | nil =>
    intro nodes edges st h1 h2 h3
    rw [expandPendings]
    exact h1
  | cons pd rest ih =>
    intro nodes edges st h1 h2 h3
    rw [expandPendings]
    obtain ⟨hc1, hc2, hc3⟩ := hp pd.target.filePath (targetNameOf pd.target)
      pd.target.startLine pd.callSiteId st
    set res := p pd.target.filePath (some (targetNameOf pd.target))
      (some pd.target.startLine) none true (some pd.callSiteId) st with hres
    have hwl1 : hasId (nodes ++ res.1.nodes) wLast := hasId_append_left _ h2
    have hrest1 : ∀ q ∈ rest, hasId (nodes ++ res.1.nodes) q.callSiteId :=
      fun q hq => hasId_append_left _ (h3 q (List.mem_cons_of_mem _ hq))
    split
    · split
      · rename_i childEntry heq
        dsimp only
        have hce : hasId res.1.nodes childEntry := hc2 childEntry heq
        have hedges1 : EdgesClosed (nodes ++ res.1.nodes)
            (edges ++ res.1.edges ++
              [⟨res.2.nextId, pd.callSiteId, childEntry,
                FlowEdgeType.DirectCall⟩]) := by
          intro ed hed
          rcases List.mem_append.mp hed with hed' | hed'
          · rcases List.mem_append.mp hed' with hed'' | hed''
            · obtain ⟨c1, c2⟩ := h1 ed hed''
              exact ⟨hasId_append_left _ c1, hasId_append_left _ c2⟩
            · obtain ⟨c1, c2⟩ := hc1 ed hed''
              exact ⟨hasId_append_right _ c1, hasId_append_right _ c2⟩
          · simp only [List.mem_singleton] at hed'
            subst hed'
            exact ⟨hasId_append_left _ (h3 pd (List.mem_cons_self pd rest)),
              hasId_append_right _ hce⟩
        split
        · rename_i childExit heq2
          split
          · exact ih _ _ _ hedges1 hwl1 hrest1
          · have hxe : hasId res.1.nodes childExit := hc3 childExit heq2
            have hedges2 : EdgesClosed (nodes ++ res.1.nodes)
                (edges ++ res.1.edges ++
                  [⟨res.2.nextId, pd.callSiteId, childEntry,
                    FlowEdgeType.DirectCall⟩] ++
                  [⟨res.2.nextId + 1, childExit, wLast,
                    FlowEdgeType.DirectCall⟩]) := by
              intro ed hed
              rcases List.mem_append.mp hed with hed' | hed'
              · exact hedges1 ed hed'
              · simp only [List.mem_singleton] at hed'
                subst hed'
                exact ⟨hasId_append_right _ hxe, hasId_append_left _ h2⟩
            exact ih _ _ _ hedges2 hwl1 hrest1
        · exact ih _ _ _ hedges1 hwl1 hrest1
      · exact ih nodes edges _ h1 h2
          (fun q hq => h3 q (List.mem_cons_of_mem _ hq))
    · exact ih nodes edges _ h1 h2
        (fun q hq => h3 q (List.mem_cons_of_mem _ hq))

theorem finishScope_closed (entryId exitId : Nat) (nodes : List FlowNode)
    (edges : List FlowEdge) (wLast : Nat) (st : ParseState)
    (h1 : EdgesClosed nodes edges) (h2 : hasId nodes wLast)
    (he : hasId nodes entryId) (hx : hasId nodes exitId) :
    ResultClosed (finishScope entryId exitId nodes edges wLast st).1 := by
  rw [finishScope]
  split
  · refine ⟨?_, ?_, ?_⟩
    · intro ed hed
      rcases List.mem_append.mp hed with h' | h'
      · exact h1 ed h'
      · simp only [List.mem_singleton] at h'
        subst h'
        exact ⟨h2, hx⟩
    · intro i hi
      simp only [Option.some_inj] at hi
      subst hi
      exact he
    · intro i hi
      simp only [Option.some_inj] at hi
      subst hi
      exact hx
  · split
    · refine ⟨?_, ?_, ?_⟩
      · intro ed hed
        rcases List.mem_append.mp hed with h' | h'
        · exact h1 ed h'
        · simp only [List.mem_singleton] at h'
          subst h'
          exact ⟨he, hx⟩
      · intro i hi
        simp only [Option.some_inj] at hi
        subst hi
        exact he
      · intro i hi
        simp only [Option.some_inj] at hi
        subst hi
        exact hx
    · refine ⟨h1, ?_, ?_⟩
      · intro i hi
        simp only [Option.some_inj] at hi
        subst hi
        exact he
      · intro i hi
        simp only [Option.some_inj] at hi
        subst hi
        exact hx

theorem scanScope_closed (p : RecParse)
    (hp : ∀ fp' fn' sl' cal' st',
      ResultClosed (p fp' (some fn') (some sl') none true (some cal') st').1)
    (fp : String) (sl? el? : Option Nat) (forest : AstForest)
    (entryId exitId : Nat) (nodes0 : List FlowNode) (st : ParseState)
    (he : hasId nodes0 entryId) (hx : hasId nodes0 exitId) :
    ResultClosed (scanScope p fp sl? el? forest entryId exitId nodes0 st).1 := by
  rw [scanScope]
  obtain ⟨g1, g2, g3⟩ := walkNodes_closed fp sl? el? forest
    ⟨nodes0, [], entryId, [], st.nextId⟩
    (by intro ed hed; simp at hed) he (by intro pd hpd; simp at hpd)
  set w := walkNodes fp sl? el? forest ⟨nodes0, [], entryId, [], st.nextId⟩ with hw
  have hclosed := expandPendings_closed p hp w.lastId w.pendings w.nodes w.edges
    ⟨st.visited, w.nextId⟩ g1 g2 g3
  obtain ⟨l, hl, _⟩ := expandPendings_nodes p w.lastId w.pendings w.nodes w.edges
    ⟨st.visited, w.nextId⟩
  obtain ⟨lw, hlw⟩ := walkNodes_nodes_prefix fp sl? el? forest
    ⟨nodes0, [], entryId, [], st.nextId⟩
  rw [← hw] at hlw
  have hwl : hasId (expandPendings p w.lastId w.pendings w.nodes w.edges
      ⟨st.visited, w.nextId⟩).1 w.lastId := by
    rw [hl]
    exact hasId_append_left _ g2
  have hent : hasId (expandPendings p w.lastId w.pendings w.nodes w.edges
      ⟨st.visited, w.nextId⟩).1 entryId := by
    rw [hl, hlw]
    rw [List.append_assoc]
    exact hasId_append_left _ he
  have hext : hasId (expandPendings p w.lastId w.pendings w.nodes w.edges
      ⟨st.visited, w.nextId⟩).1 exitId := by
    rw [hl, hlw]
    rw [List.append_assoc]
    exact hasId_append_left _ hx
  exact finishScope_closed entryId exitId _ _ _ _ hclosed hwl hent hext

theorem emptyResult_closed : ResultClosed emptyResult := by
  refine ⟨?_, ?_, ?_⟩ <;> intro x hx <;> simp [emptyResult] at hx

theorem parseCore_closed (prog : Project) (p : RecParse)
    (hp : ∀ fp' fn' sl' cal' st',
      ResultClosed (p fp' (some fn') (some sl') none true (some cal') st').1)
    (fp : String) (fn? : Option String) (sl el : Option Nat) (rec : Bool)
    (cal : Option Nat) (st : ParseState) :
    ResultClosed (parseCore prog p fp fn? sl el rec cal st).1 := by
  rw [parseCore]
  split
  · exact emptyResult_closed
  · dsimp only
    split
    · exact emptyResult_closed
    · split
      · -- functionName truthy
        split
        · -- found
          refine scanScope_closed p hp _ _ _ _ _ _ _ _ ?_ ?_
          · exact ⟨_, List.mem_cons_self _ _, rfl⟩
          · refine ⟨_, List.mem_cons_of_mem _ (List.mem_cons_self _ _), rfl⟩
        · split
          · -- Note stand-in
            refine ⟨?_, ?_, ?_⟩
            · intro ed hed
              simp at hed
            · intro i hi
              simp only [Option.some_inj] at hi
              subst hi
              exact ⟨_, List.mem_cons_self _ _, rfl⟩
            · intro i hi
              simp only [Option.some_inj] at hi
              subst hi
              exact ⟨_, List.mem_cons_self _ _, rfl⟩
          · exact emptyResult_closed
      · -- functionName falsy
        split
        · -- both bounds given
          split
          · exact emptyResult_closed
          · refine scanScope_closed p hp _ _ _ _ _ _ _ _ ?_ ?_
            · exact ⟨_, List.mem_cons_self _ _, rfl⟩
            · exact ⟨_, List.mem_cons_of_mem _ (List.mem_cons_self _ _), rfl⟩
        · split
          · exact emptyResult_closed
          · refine scanScope_closed p hp _ _ _ _ _ _ _ _ ?_ ?_
            · exact ⟨_, List.mem_cons_self _ _, rfl⟩
            · exact ⟨_, List.mem_cons_of_mem _ (List.mem_cons_self _ _), rfl⟩

/-- C3: in every extraction result, every Flow's `from` and `to` name
Steps present in the result's `steps`, and `entryStepId`/`exitStepId`,
when non-null, each name a Step present in `steps`. -/
theorem extraction_result_closed (prog : Project) : ∀ (fuel : Nat)
    (fp : String) (fn? : Option String) (sl el : Option Nat) (rec : Bool)
    (cal : Option Nat) (st : ParseState),
    ResultClosed (parseFunctionCalls prog fuel fp fn? sl el rec cal st).1 := by
  intro fuel
  induction fuel with
  | zero =>
    intro fp fn? sl el rec cal st
    exact emptyResult_closed
  | succ k ih =>
    intro fp fn? sl el rec cal st
    rw [parseFunctionCalls]
    exact parseCore_closed prog (parseFunctionCalls prog k)
      (fun fp' fn' sl' cal' st' => ih fp' (some fn') (some sl') none true
        (some cal') st')
      fp fn? sl el rec cal _

/-- Witness for C3 at the C1 scenario extraction. -/
theorem extraction_result_closed_witness :
    ResultClosed (parseFunctionCalls progA 5 "a.ts" (some "main") none none
      false none ⟨[], 0⟩).1 :=
  extraction_result_closed progA 5 "a.ts" (some "main") none none
    false none ⟨[], 0⟩

/-! ## C2: visited-set discipline -/

/-- Re-encountering a visited key short-circuits to the empty result
without recursing (lines 88–92); at fuel 0 the model returns the same
empty result, so this holds for every fuel. -/
theorem revisit_short_circuit (prog : Project) (fuel : Nat) (fp : String)
    (fn? : Option String) (sl el : Option Nat) (cal : Option Nat)
    (st : ParseState)
    (h : st.visited.contains (visitedKeyOf fp fn? sl el) = true) :
    parseFunctionCalls prog fuel fp fn? sl el true cal st =
      (emptyResult, st) := by
  cases fuel with
  | zero => rfl
  | succ k =>
    rw [parseFunctionCalls]
    simp only [if_true]
    rw [parseCore, if_pos h]

theorem beq_false_of_length_ne {x y : String} (h : x.length ≠ y.length) :
    (x == y) = false := by
  simp only [beq_eq_false_iff_ne]
  intro he
  exact h (congrArg String.length he)

theorem string_append_left_cancel {p a b : String} (h : p ++ a = p ++ b) :
    a = b := by
  have := congrArg String.data h
  rw [String.data_append, String.data_append] at this
  exact String.ext (List.append_cancel_left this)

theorem function_prefix_ne_entry (fn fname : String) :
    (("Function: " ++ fn) == ("Entry: " ++ fname)) = false := by
  simp only [beq_eq_false_iff_ne]
  intro h
  have := congrArg String.data h
  rw [String.data_append, String.data_append] at this
  have h3 := congrArg List.head? this
  simp at h3

/-- The classifier value on a synthesized function-scope entry Step. -/
theorem isScopeEntryFor_entryNode (file fname fp fn : String) (i a b : Nat)
    (t : FlowNodeType) (rec : Bool) :
    isScopeEntryFor file fname
      ⟨i, fn, t, some (createCodeReference fp a b),
        (if rec then "Function" else "Entry") ++ ": " ++ fn⟩ =
      (fp == file && fn == fname) := by
  rw [isScopeEntryFor]
  simp only [createCodeReference]
  cases rec with
  | true =>
    simp only [if_true]
    by_cases hf : fn = fname
    · subst hf
      simp
    · have h1 : ((("Function" : String) ++ ": " ++ fn) ==
          ("Entry: " ++ fname)) = false := function_prefix_ne_entry fn fname
      have h2 : ((("Function" : String) ++ ": " ++ fn) ==
          ("Function: " ++ fname)) = false := by
        simp only [beq_eq_false_iff_ne]
        intro he
        exact hf (string_append_left_cancel
          (show ("Function: " : String) ++ fn = "Function: " ++ fname by
            rw [← he]; rfl))
      rw [h1, h2]
      simp [hf]
  | false =>
    simp only [Bool.false_eq_true, if_false]
    by_cases hf : fn = fname
    · subst hf
      simp
    · have h1 : ((("Entry" : String) ++ ": " ++ fn) ==
          ("Entry: " ++ fname)) = false := by
        simp only [beq_eq_false_iff_ne]
        intro he
        exact hf (string_append_left_cancel
          (show ("Entry: " : String) ++ fn = "Entry: " ++ fname by
            rw [← he]; rfl))
      have h2 : ((("Entry" : String) ++ ": " ++ fn) ==
          ("Function: " ++ fname)) = false := by
        have := function_prefix_ne_entry fname fn
        simp only [beq_eq_false_iff_ne] at this ⊢
        intro he
        exact this (by rw [← he]; rfl)
      rw [h1, h2]
      simp [hf]

/-- Call-site Steps are never scope entries. -/
theorem isScopeEntryFor_callSite (file fname fp c : String) (i s e : Nat) :
    isScopeEntryFor file fname (callSiteNodeOf fp c i s e) = false := by
  rw [isScopeEntryFor, callSiteNodeOf]
  by_cases hl : (("Call: " ++ c) == fname) = true
  · have hfe : fname = "Call: " ++ c := (beq_iff_eq.mp hl).symm
    subst hfe
    have h1 : (("Invocation of " ++ c) ==
        ("Entry: " ++ ("Call: " ++ c))) = false := by
      apply beq_false_of_length_ne
      simp only [String.length_append,
        show ("Invocation of " : String).length = 14 from rfl,
        show ("Entry: " : String).length = 7 from rfl,
        show ("Call: " : String).length = 6 from rfl]
      omega
    have h2 : (("Invocation of " ++ c) ==
        ("Function: " ++ ("Call: " ++ c))) = false := by
      apply beq_false_of_length_ne
      simp only [String.length_append,
        show ("Invocation of " : String).length = 14 from rfl,
        show ("Function: " : String).length = 10 from rfl,
        show ("Call: " : String).length = 6 from rfl]
      omega
    simp [h1, h2]
  · have : (("Call: " ++ c) == fname) = false := by
      simpa using hl
    simp [this]

/-- Synthesized exit Steps are never scope entries. -/
theorem isScopeEntryFor_exitNode (file fname fn : String) (i : Nat)
    (ref : Option CodeReference) :
    isScopeEntryFor file fname
      ⟨i, "Exit " ++ fn, FlowNodeType.ExitPoint, ref, "Exit of " ++ fn⟩ =
      false := by
  rw [isScopeEntryFor]
  by_cases hl : (("Exit " ++ fn) == fname) = true
  · have hfe : fname = "Exit " ++ fn := (beq_iff_eq.mp hl).symm
    subst hfe
    have h1 : (("Exit of " ++ fn) == ("Entry: " ++ ("Exit " ++ fn))) = false := by
      apply beq_false_of_length_ne
      simp only [String.length_append,
        show ("Exit of " : String).length = 8 from rfl,
        show ("Entry: " : String).length = 7 from rfl,
        show ("Exit " : String).length = 5 from rfl]
      omega
    have h2 : (("Exit of " ++ fn) ==
        ("Function: " ++ ("Exit " ++ fn))) = false := by
      apply beq_false_of_length_ne
      simp only [String.length_append,
        show ("Exit of " : String).length = 8 from rfl,
        show ("Function: " : String).length = 10 from rfl,
        show ("Exit " : String).length = 5 from rfl]
      omega
    simp [h1, h2]
  · have : (("Exit " ++ fn) == fname) = false := by simpa using hl
    simp [this]

/-- Steps without a code reference are never scope entries. -/
theorem isScopeEntryFor_noRef (file fname lb ds : String) (i : Nat)
    (t : FlowNodeType) :
    isScopeEntryFor file fname ⟨i, lb, t, none, ds⟩ = false := by
  rw [isScopeEntryFor]
  simp

/-- The whole-file entry Step is never a function-scope entry. -/
theorem isScopeEntryFor_fileEntry (file fname fp : String) (i a b : Nat) :
    isScopeEntryFor file fname
      ⟨i, basename fp, FlowNodeType.EntryPoint,
        some (createCodeReference fp a b),
        "Entry: File " ++ basename fp⟩ = false := by
  rw [isScopeEntryFor]
  by_cases hl : (basename fp == fname) = true
  · have hfe : fname = basename fp := (beq_iff_eq.mp hl).symm
    subst hfe
    have h1 : (("Entry: File " ++ basename fp) ==
        ("Entry: " ++ basename fp)) = false := by
      apply beq_false_of_length_ne
      simp only [String.length_append,
        show ("Entry: File " : String).length = 12 from rfl,
        show ("Entry: " : String).length = 7 from rfl]
      omega
    have h2 : (("Entry: File " ++ basename fp) ==
        ("Function: " ++ basename fp)) = false := by
      apply beq_false_of_length_ne
      simp only [String.length_append,
        show ("Entry: File " : String).length = 12 from rfl,
        show ("Function: " : String).length = 10 from rfl]
      omega
    simp [h1, h2]
  · have : (basename fp == fname) = false := by simpa using hl
    simp [this]

theorem entryCount_append (file fname : String) (l₁ l₂ : List FlowNode) :
    entryCount file fname (l₁ ++ l₂) =
      entryCount file fname l₁ + entryCount file fname l₂ :=
  List.countP_append _ l₁ l₂

/-- The walk never changes the number of scope-entry Steps. -/
theorem walkNodes_entryCount (fp : String) (sl? el? : Option Nat)
    (forest : AstForest) (st : WalkSt) (file fname : String) :
    entryCount file fname (walkNodes fp sl? el? forest st).nodes =
      entryCount file fname st.nodes := by
  induction forest, st using walkNodes.induct fp sl? el? with
  | case1 st => rw [walkNodes]
  | case2 s e children rest st h1 h2 ih =>
    rw [walkNodes]
    simp only [h1, h2, if_true]
    exact ih
  | case3 s e children rest st h1 h2 ih₁ ih₂ =>
    rw [walkNodes]
    simp only [h1, if_true]
    rw [if_neg h2]
    rw [ih₂, ih₁]
  | case4 s e children rest st h1 ih₁ ih₂ =>
    rw [walkNodes]
    rw [if_neg h1]
    rw [ih₂, ih₁]
  | case5 c s e r children rest st h1 h2 ih =>
    rw [walkNodes]
    simp only [h1, h2, if_true]
    exact ih
  | case6 c s e r children rest st h1 h2 ih₁ ih₂ =>
    rw [walkNodes]
    simp only [h1, if_true]
    rw [if_neg h2]
    rw [ih₂, ih₁]
  | case7 c s e r children rest st h1 st1 hp ih =>
    rw [walkNodes]
    rw [if_neg h1]
    simp only [hp]
    rw [ih]
    have hn := processCall_nodes fp c s e r st
    rw [hp] at hn
    rw [hn, entryCount_append]
    have hz : entryCount file fname [callSiteNodeOf fp c st.nextId s e] = 0 := by
      simp [entryCount, List.countP_cons, isScopeEntryFor_callSite]
    rw [hz]
    omega
  | case8 c s e r children rest st h1 st1 hp ih₁ ih₂ =>
    rw [walkNodes]
    rw [if_neg h1]
    simp only [hp]
    rw [ih₂, ih₁]
    have hn := processCall_nodes fp c s e r st
    rw [hp] at hn
    rw [hn, entryCount_append]
    have hz : entryCount file fname [callSiteNodeOf fp c st.nextId s e] = 0 := by
      simp [entryCount, List.countP_cons, isScopeEntryFor_callSite]
    rw [hz]
    omega

theorem expandPendings_count_mono (p : RecParse) (wLast : Nat)
    (ps : List Pending) (nodes : List FlowNode) (edges : List FlowEdge)
    (st : ParseState) (file fname : String) :
    entryCount file fname nodes ≤
      entryCount file fname (expandPendings p wLast ps nodes edges st).1 := by
  obtain ⟨l, hl, _⟩ := expandPendings_nodes p wLast ps nodes edges st
  rw [hl, entryCount_append]
  omega

/-- The expansion stage preserves the per-pair scope-entry bookkeeping. -/
theorem expandPendings_entryCount (p : RecParse) (hp : ParseCountInv p)
    (wLast : Nat) (ps : List Pending) (file fname : String) :
    ∀ (nodes : List FlowNode) (edges : List FlowEdge) (st : ParseState),
      entryCount file fname nodes ≤ 1 →
      (1 ≤ entryCount file fname nodes → keyForPair file fname ∈ st.visited) →
      entryCount file fname (expandPendings p wLast ps nodes edges st).1 ≤ 1 ∧
        (1 ≤ entryCount file fname (expandPendings p wLast ps nodes edges st).1 →
          keyForPair file fname ∈
            (expandPendings p wLast ps nodes edges st).2.2.visited) ∧
        st.visited ⊆ (expandPendings p wLast ps nodes edges st).2.2.visited ∧
        (entryCount file fname nodes <
            entryCount file fname (expandPendings p wLast ps nodes edges st).1 →
          keyForPair file fname ∉ st.visited) := by
  induction ps with
  | nil =>
    intro nodes edges st hA1 hA2
    rw [expandPendings]
    refine ⟨hA1, hA2, fun x hx => hx, ?_⟩
    intro hlt
    exact absurd hlt (lt_irrefl _)
  | cons pd rest ih =>
    intro nodes edges st hA1 hA2
    obtain ⟨hm, hV2, hV3⟩ := hp pd.target.filePath (targetNameOf pd.target)
      pd.target.startLine pd.callSiteId st
    rw [expandPendings]
    set res := p pd.target.filePath (some (targetNameOf pd.target))
      (some pd.target.startLine) none true (some pd.callSiteId) st with hres
    have hA2' : 1 ≤ entryCount file fname nodes →
        keyForPair file fname ∈ res.2.visited := fun h => hm (hA2 h)
    split
    · split
      · rename_i childEntry heq
        dsimp only
        have hcount1 : entryCount file fname (nodes ++ res.1.nodes) =
            entryCount file fname nodes + entryCount file fname res.1.nodes :=
          entryCount_append _ _ _ _
        have hB1 : entryCount file fname (nodes ++ res.1.nodes) ≤ 1 := by
          rw [hcount1]
          by_cases hz : 1 ≤ entryCount file fname res.1.nodes
          · have hfresh := (hV2 file fname hz).1
            have hzero : entryCount file fname nodes = 0 := by
              by_contra hne
              exact hfresh (hA2 (by omega))
            have := hV3 file fname
            omega
          · have := hA1
            omega
        have hB2 : 1 ≤ entryCount file fname (nodes ++ res.1.nodes) →
            keyForPair file fname ∈ res.2.visited := by
          rw [hcount1]
          intro h
          by_cases hz : 1 ≤ entryCount file fname res.1.nodes
          · exact (hV2 file fname hz).2
          · exact hA2' (by omega)
        have hB4' : entryCount file fname nodes <
            entryCount file fname (nodes ++ res.1.nodes) →
            keyForPair file fname ∉ st.visited := by
          rw [hcount1]
          intro h
          exact (hV2 file fname (by omega)).1
        split
        · rename_i childExit heq2
          split
          · obtain ⟨g1, g2, g3, g4⟩ := ih (nodes ++ res.1.nodes)
              (edges ++ res.1.edges ++ [⟨res.2.nextId, pd.callSiteId,
                childEntry, FlowEdgeType.DirectCall⟩])
              ⟨res.2.visited, res.2.nextId + 1⟩ hB1 hB2
            refine ⟨g1, g2, fun x hx => g3 (hm hx), ?_⟩
            intro hlt
            by_cases hstep : entryCount file fname nodes <
                entryCount file fname (nodes ++ res.1.nodes)
            · exact hB4' hstep
            · have hmono := expandPendings_count_mono p wLast rest
                (nodes ++ res.1.nodes) (edges ++ res.1.edges ++
                  [⟨res.2.nextId, pd.callSiteId, childEntry,
                    FlowEdgeType.DirectCall⟩])
                ⟨res.2.visited, res.2.nextId + 1⟩ file fname
              intro hmem
              exact g4 (by omega) (hm hmem)
          · obtain ⟨g1, g2, g3, g4⟩ := ih (nodes ++ res.1.nodes)
              (edges ++ res.1.edges ++ [⟨res.2.nextId, pd.callSiteId,
                childEntry, FlowEdgeType.DirectCall⟩] ++
                [⟨res.2.nextId + 1, childExit, wLast, FlowEdgeType.DirectCall⟩])
              ⟨res.2.visited, res.2.nextId + 1 + 1⟩ hB1 hB2
            refine ⟨g1, g2, fun x hx => g3 (hm hx), ?_⟩
            intro hlt
            by_cases hstep : entryCount file fname nodes <
                entryCount file fname (nodes ++ res.1.nodes)
            · exact hB4' hstep
            · have hmono := expandPendings_count_mono p wLast rest
                (nodes ++ res.1.nodes) (edges ++ res.1.edges ++
                  [⟨res.2.nextId, pd.callSiteId, childEntry,
                    FlowEdgeType.DirectCall⟩] ++
                  [⟨res.2.nextId + 1, childExit, wLast,
                    FlowEdgeType.DirectCall⟩])
                ⟨res.2.visited, res.2.nextId + 1 + 1⟩ file fname
              intro hmem
              exact g4 (by omega) (hm hmem)
        · obtain ⟨g1, g2, g3, g4⟩ := ih (nodes ++ res.1.nodes)
            (edges ++ res.1.edges ++ [⟨res.2.nextId, pd.callSiteId,
              childEntry, FlowEdgeType.DirectCall⟩])
            ⟨res.2.visited, res.2.nextId + 1⟩ hB1 hB2
          refine ⟨g1, g2, fun x hx => g3 (hm hx), ?_⟩
          intro hlt
          by_cases hstep : entryCount file fname nodes <
              entryCount file fname (nodes ++ res.1.nodes)
          · exact hB4' hstep
          · have hmono := expandPendings_count_mono p wLast rest
              (nodes ++ res.1.nodes) (edges ++ res.1.edges ++
                [⟨res.2.nextId, pd.callSiteId, childEntry,
                  FlowEdgeType.DirectCall⟩])
              ⟨res.2.visited, res.2.nextId + 1⟩ file fname
            intro hmem
            exact g4 (by omega) (hm hmem)
      · obtain ⟨g1, g2, g3, g4⟩ := ih nodes edges res.2 hA1 hA2'
        refine ⟨g1, g2, fun x hx => g3 (hm hx), ?_⟩
        intro hlt hmem
        exact g4 hlt (hm hmem)
    · obtain ⟨g1, g2, g3, g4⟩ := ih nodes edges res.2 hA1 hA2'
      refine ⟨g1, g2, fun x hx => g3 (hm hx), ?_⟩
      intro hlt hmem
      exact g4 hlt (hm hmem)

theorem finishScope_visited (entryId exitId : Nat) (nodes : List FlowNode)
    (edges : List FlowEdge) (wLast : Nat) (st : ParseState) :
    (finishScope entryId exitId nodes edges wLast st).2.visited = st.visited := by
  rw [finishScope]
  split
  · rfl
  · split
    · rfl
    · rfl

/-- The scope scan preserves the per-pair scope-entry bookkeeping. -/
theorem scanScope_entryCount (p : RecParse) (hp : ParseCountInv p)
    (fp : String) (sl? el? : Option Nat) (forest : AstForest)
    (entryId exitId : Nat) (nodes0 : List FlowNode) (st : ParseState)
    (file fname : String)
    (hA1 : entryCount file fname nodes0 ≤ 1)
    (hA2 : 1 ≤ entryCount file fname nodes0 →
      keyForPair file fname ∈ st.visited) :
    entryCount file fname
        (scanScope p fp sl? el? forest entryId exitId nodes0 st).1.nodes ≤ 1 ∧
      (1 ≤ entryCount file fname
          (scanScope p fp sl? el? forest entryId exitId nodes0 st).1.nodes →
        keyForPair file fname ∈
          (scanScope p fp sl? el? forest entryId exitId nodes0 st).2.visited) ∧
      st.visited ⊆
        (scanScope p fp sl? el? forest entryId exitId nodes0 st).2.visited ∧
      (entryCount file fname nodes0 <
          entryCount file fname
            (scanScope p fp sl? el? forest entryId exitId nodes0 st).1.nodes →
        keyForPair file fname ∉ st.visited) := by
  rw [scanScope]
  set w := walkNodes fp sl? el? forest ⟨nodes0, [], entryId, [], st.nextId⟩ with hw
  have hwcount : entryCount file fname w.nodes = entryCount file fname nodes0 := by
    rw [hw]
    exact walkNodes_entryCount fp sl? el? forest _ file fname
  obtain ⟨g1, g2, g3, g4⟩ := expandPendings_entryCount p hp w.lastId w.pendings
    file fname w.nodes w.edges ⟨st.visited, w.nextId⟩
    (by rw [hwcount]; exact hA1) (by rw [hwcount]; exact hA2)
  rw [finishScope_nodes, finishScope_visited]
  exact ⟨g1, g2, g3, fun h => g4 (by rw [hwcount]; exact h)⟩

theorem entryCount_nil (file fname : String) : entryCount file fname [] = 0 := rfl

theorem entryCount_cons (file fname : String) (n : FlowNode)
    (l : List FlowNode) :
    entryCount file fname (n :: l) =
      (if isScopeEntryFor file fname n = true then 1 else 0) +
        entryCount file fname l := by
  rw [entryCount, entryCount, List.countP_cons]
  by_cases h : isScopeEntryFor file fname n = true
  · rw [if_pos h]
    omega
  · rw [if_neg h]
    omega

/-- The core parse step preserves the visited-set discipline, for any
recursion flag. -/
theorem parseCore_count (prog : Project) (p : RecParse)
    (hp : ParseCountInv p) (fp : String) (fn? : Option String)
    (sl el : Option Nat) (rec : Bool) (cal : Option Nat) (st : ParseState) :
    st.visited ⊆ (parseCore prog p fp fn? sl el rec cal st).2.visited ∧
      (∀ file fname, 1 ≤ entryCount file fname
          (parseCore prog p fp fn? sl el rec cal st).1.nodes →
        keyForPair file fname ∉ st.visited ∧
          keyForPair file fname ∈
            (parseCore prog p fp fn? sl el rec cal st).2.visited) ∧
      (∀ file fname, entryCount file fname
          (parseCore prog p fp fn? sl el rec cal st).1.nodes ≤ 1) := by
  rw [parseCore]
  split
  · refine ⟨fun x hx => hx, ?_, ?_⟩
    · intro file fname h
      rw [show entryCount file fname emptyResult.nodes = 0 from rfl] at h
      omega
    · intro file fname
      rw [show entryCount file fname emptyResult.nodes = 0 from rfl]
      omega
  · rename_i hkey
    dsimp only
    have hsub : st.visited ⊆ visitedKeyOf fp fn? sl el :: st.visited :=
      fun x hx => List.mem_cons_of_mem _ hx
    have hnotmem : visitedKeyOf fp fn? sl el ∉ st.visited := by
      intro hmem
      exact hkey (by simpa [List.elem_iff] using hmem)
    split
    · refine ⟨hsub, ?_, ?_⟩
      · intro file fname h
        rw [show entryCount file fname emptyResult.nodes = 0 from rfl] at h
        omega
      · intro file fname
        rw [show entryCount file fname emptyResult.nodes = 0 from rfl]
        omega
    · rename_i sf hsf
      split
      · -- functionName truthy
        rename_i fn hjs
        split
        · -- found
          rename_i f hfind
          have hkeyfn : visitedKeyOf fp fn? sl el = keyForPair fp fn := by
            rw [visitedKeyOf, hjs, keyForPair]
          have hcnt : ∀ file fname, entryCount file fname
              [(⟨st.nextId, fn,
                (if rec then FlowNodeType.Function else FlowNodeType.EntryPoint),
                some (createCodeReference fp f.startLine f.endLine),
                (if rec then "Function" else "Entry") ++ ": " ++ fn⟩ : FlowNode),
               ⟨st.nextId + 1, "Exit " ++ fn, FlowNodeType.ExitPoint,
                some (createCodeReference fp f.endLine f.endLine),
                "Exit of " ++ fn⟩] =
              (if (fp == file && fn == fname) = true then 1 else 0) := by
            intro file fname
            rw [entryCount_cons, entryCount_cons, entryCount_nil,
              isScopeEntryFor_entryNode, isScopeEntryFor_exitNode]
            by_cases hb : (fp == file && fn == fname) = true
            · rw [if_pos hb]
              simp
            · rw [if_neg hb]
              simp
          have hpair : ∀ file fname,
              (fp == file && fn == fname) = true →
              keyForPair file fname = visitedKeyOf fp fn? sl el := by
            intro file fname hb
            simp only [Bool.and_eq_true, beq_iff_eq] at hb
            rw [hkeyfn, ← hb.1, ← hb.2]
          obtain hSC := fun file fname => scanScope_entryCount p hp fp sl el
            f.body st.nextId (st.nextId + 1) _
            ⟨visitedKeyOf fp fn? sl el :: st.visited, st.nextId + 2⟩ file fname
            (by rw [hcnt file fname]; split <;> omega)
            (by
              rw [hcnt file fname]
              intro h
              split at h
              · rename_i hb
                rw [hpair file fname hb]
                exact List.mem_cons_self _ _
              · omega)
          refine ⟨?_, ?_, ?_⟩
          · intro x hx
            exact (hSC "" "").2.2.1 (List.mem_cons_of_mem _ hx)
          · intro file fname h
            obtain ⟨B1, B2, B3, B4⟩ := hSC file fname
            refine ⟨?_, B2 h⟩
            by_cases h0 : 1 ≤ entryCount file fname
                [(⟨st.nextId, fn,
                  (if rec then FlowNodeType.Function else FlowNodeType.EntryPoint),
                  some (createCodeReference fp f.startLine f.endLine),
                  (if rec then "Function" else "Entry") ++ ": " ++ fn⟩ : FlowNode),
                 ⟨st.nextId + 1, "Exit " ++ fn, FlowNodeType.ExitPoint,
                  some (createCodeReference fp f.endLine f.endLine),
                  "Exit of " ++ fn⟩]
            · have hb : (fp == file && fn == fname) = true := by
                rw [hcnt file fname] at h0
                by_contra hc
                rw [if_neg hc] at h0
                omega
              rw [hpair file fname hb]
              exact hnotmem
            · intro hmem
              have hlt := B4 (by omega)
              exact hlt (List.mem_cons_of_mem _ hmem)
          · intro file fname
            exact (hSC file fname).1
        · split
          · -- Note stand-in
            refine ⟨hsub, ?_, ?_⟩
            · intro file fname h
              rw [entryCount_cons, entryCount_nil,
                if_neg (by rw [isScopeEntryFor_noRef]; exact Bool.false_ne_true)] at h
              omega
            · intro file fname
              rw [entryCount_cons, entryCount_nil,
                if_neg (by rw [isScopeEntryFor_noRef]; exact Bool.false_ne_true)]
              omega
          · refine ⟨hsub, ?_, ?_⟩
            · intro file fname h
              rw [show entryCount file fname emptyResult.nodes = 0 from rfl] at h
              omega
            · intro file fname
              rw [show entryCount file fname emptyResult.nodes = 0 from rfl]
              omega
      · -- functionName falsy: block / file / recursive-empty branches
        have hzero_block : ∀ (file fname lb1 lb2 d1 d2 : String) (i j : Nat),
            entryCount file fname
              [(⟨i, lb1, FlowNodeType.EntryPoint, none, d1⟩ : FlowNode),
               ⟨j, lb2, FlowNodeType.ExitPoint, none, d2⟩] = 0 := by
          intro file fname lb1 lb2 d1 d2 i j
          rw [entryCount_cons, entryCount_cons, entryCount_nil,
            if_neg (by rw [isScopeEntryFor_noRef]; exact Bool.false_ne_true),
            if_neg (by rw [isScopeEntryFor_noRef]; exact Bool.false_ne_true)]
        split
        · -- both bounds given
          rename_i slv elv
          split
          · -- recursive: empty result
            refine ⟨hsub, ?_, ?_⟩
            · intro file fname h
              rw [show entryCount file fname emptyResult.nodes = 0 from rfl] at h
              omega
            · intro file fname
              rw [show entryCount file fname emptyResult.nodes = 0 from rfl]
              omega
          · obtain hSC := fun file fname => scanScope_entryCount p hp fp
              (some slv) (some elv)
              sf.topLevelNodes st.nextId (st.nextId + 1)
              [⟨st.nextId,
                "Code Block (Lines " ++ toString slv ++ "-" ++ toString elv ++ ")",
                FlowNodeType.EntryPoint, none,
                "Selected code block in " ++ basename fp⟩,
               ⟨st.nextId + 1,
                "Exit Block (Lines " ++ toString slv ++ "-" ++ toString elv ++ ")",
                FlowNodeType.ExitPoint, none,
                "Exit of selected block in " ++ basename fp⟩]
              ⟨visitedKeyOf fp fn? (some slv) (some elv) :: st.visited,
                st.nextId + 2⟩ file fname
              (by rw [hzero_block]; omega)
              (by rw [hzero_block]; omega)
            refine ⟨?_, ?_, ?_⟩
            · intro x hx
              exact (hSC "" "").2.2.1 (List.mem_cons_of_mem _ hx)
            · intro file fname h
              obtain ⟨B1, B2, B3, B4⟩ := hSC file fname
              refine ⟨?_, B2 h⟩
              intro hmem
              have hlt := B4 (by rw [hzero_block]; omega)
              exact hlt (List.mem_cons_of_mem _ hmem)
            · intro file fname
              exact (hSC file fname).1
        · split
          · -- recursive: empty result
            refine ⟨hsub, ?_, ?_⟩
            · intro file fname h
              rw [show entryCount file fname emptyResult.nodes = 0 from rfl] at h
              omega
            · intro file fname
              rw [show entryCount file fname emptyResult.nodes = 0 from rfl]
              omega
          · -- whole-file scope
            have hzero_file : ∀ (file fname : String),
                entryCount file fname
                  [(⟨st.nextId, basename fp, FlowNodeType.EntryPoint,
                    some (createCodeReference fp 1 sf.endLine),
                    "Entry: File " ++ basename fp⟩ : FlowNode),
                   ⟨st.nextId + 1, "Exit File " ++ basename fp,
                    FlowNodeType.ExitPoint, none,
                    "Exit of file " ++ basename fp⟩] = 0 := by
              intro file fname
              rw [entryCount_cons, entryCount_cons, entryCount_nil,
                if_neg (by rw [isScopeEntryFor_fileEntry]; exact Bool.false_ne_true),
                if_neg (by rw [isScopeEntryFor_noRef]; exact Bool.false_ne_true)]
            obtain hSC := fun file fname => scanScope_entryCount p hp fp sl el
              sf.topLevelNodes st.nextId (st.nextId + 1) _
              ⟨visitedKeyOf fp fn? sl el :: st.visited, st.nextId + 2⟩ file fname
              (by rw [hzero_file]; omega)
              (by rw [hzero_file]; omega)
            refine ⟨?_, ?_, ?_⟩
            · intro x hx
              exact (hSC "" "").2.2.1 (List.mem_cons_of_mem _ hx)
            · intro file fname h
              obtain ⟨B1, B2, B3, B4⟩ := hSC file fname
              refine ⟨?_, B2 h⟩
              intro hmem
              have hlt := B4 (by rw [hzero_file]; omega)
              exact hlt (List.mem_cons_of_mem _ hmem)
            · intro file fname
              exact (hSC file fname).1

/-- The visited-set discipline, by fuel induction. -/
theorem parse_count_inv (prog : Project) :
    ∀ fuel, ParseCountInv (parseFunctionCalls prog fuel) := by
  intro fuel
  induction fuel with
  | zero =>
    intro fp' fn' sl' cal' st'
    refine ⟨fun x hx => hx, ?_, ?_⟩
    · intro file fname h
      rw [show entryCount file fname
        (parseFunctionCalls prog 0 fp' (some fn') (some sl') none true
          (some cal') st').1.nodes = 0 from rfl] at h
      omega
    · intro file fname
      rw [show entryCount file fname
        (parseFunctionCalls prog 0 fp' (some fn') (some sl') none true
          (some cal') st').1.nodes = 0 from rfl]
      omega
  | succ k ih =>
    intro fp' fn' sl' cal' st'
    rw [parseFunctionCalls]
    simp only [if_true]
    exact parseCore_count prog (parseFunctionCalls prog k) ih fp' (some fn')
      (some sl') none true (some cal') st'

theorem processCall_pendings_target (fp c : String) (s e : Nat)
    (r : Option CallTarget) (st : WalkSt) :
    ∀ pd ∈ (processCall fp c s e r st).1.pendings,
      pd ∈ st.pendings ∨ ∃ ct, r = some ct ∧ pd.target = ct := by
  intro pd hpd
  cases r with
  | none => exact Or.inl hpd
  | some ct =>
    simp only [processCall] at hpd
    by_cases h : strIncludes ct.filePath "node_modules" = true
    · rw [if_pos h] at hpd
      exact Or.inl hpd
    · rw [if_neg h] at hpd
      simp only at hpd
      rcases List.mem_append.mp hpd with h' | h'
      · exact Or.inl h'
      · simp only [List.mem_singleton] at h'
        subst h'
        exact Or.inr ⟨ct, rfl, rfl⟩

theorem forestTargets_cons_call (c : String) (s e : Nat)
    (r : Option CallTarget) (children rest : AstForest) :
    ∀ ct, (r = some ct →
        ct ∈ forestTargets (AstForest.cons (AstNode.call c s e r children) rest)) ∧
      (ct ∈ forestTargets children →
        ct ∈ forestTargets (AstForest.cons (AstNode.call c s e r children) rest)) ∧
      (ct ∈ forestTargets rest →
        ct ∈ forestTargets (AstForest.cons (AstNode.call c s e r children) rest)) := by
  intro ct
  simp only [forestTargets]
  refine ⟨?_, ?_, ?_⟩
  · intro hr
    subst hr
    simp
  · intro h
    simp only [List.mem_append]
    exact Or.inl (Or.inr h)
  · intro h
    simp only [List.mem_append]
    exact Or.inr h

theorem forestTargets_cons_plain (s e : Nat) (children rest : AstForest) :
    ∀ ct, (ct ∈ forestTargets children →
        ct ∈ forestTargets (AstForest.cons (AstNode.plain s e children) rest)) ∧
      (ct ∈ forestTargets rest →
        ct ∈ forestTargets (AstForest.cons (AstNode.plain s e children) rest)) := by
  intro ct
  simp only [forestTargets]
  refine ⟨?_, ?_⟩ <;> intro h <;> simp only [List.mem_append]
  · exact Or.inl h
  · exact Or.inr h

/-- Every expansion the walk schedules resolves to a call target present
in the walked forest. -/
theorem walkNodes_pendings_targets (fp : String) (sl? el? : Option Nat)
    (forest : AstForest) (st : WalkSt) :
    ∀ pd ∈ (walkNodes fp sl? el? forest st).pendings,
      pd ∈ st.pendings ∨ pd.target ∈ forestTargets forest := by
  induction forest, st using walkNodes.induct fp sl? el? with
  | case1 st =>
    intro pd hpd
    rw [walkNodes] at hpd
    exact Or.inl hpd
  | case2 s e children rest st h1 h2 ih =>
    intro pd hpd
    rw [walkNodes] at hpd
    simp only [h1, h2, if_true] at hpd
    rcases ih pd hpd with h | h
    · exact Or.inl h
    · exact Or.inr ((forestTargets_cons_plain s e children rest pd.target).2 h)
  | case3 s e children rest st h1 h2 ih₁ ih₂ =>
    intro pd hpd
    rw [walkNodes] at hpd
    simp only [h1, if_true] at hpd
    rw [if_neg h2] at hpd
    rcases ih₂ pd hpd with h | h
    · rcases ih₁ pd h with h' | h'
      · exact Or.inl h'
      · exact Or.inr ((forestTargets_cons_plain s e children rest pd.target).1 h')
    · exact Or.inr ((forestTargets_cons_plain s e children rest pd.target).2 h)
  | case4 s e children rest st h1 ih₁ ih₂ =>
    intro pd hpd
    rw [walkNodes] at hpd
    rw [if_neg h1] at hpd
    rcases ih₂ pd hpd with h | h
    · rcases ih₁ pd h with h' | h'
      · exact Or.inl h'
      · exact Or.inr ((forestTargets_cons_plain s e children rest pd.target).1 h')
    · exact Or.inr ((forestTargets_cons_plain s e children rest pd.target).2 h)
  | case5 c s e r children rest st h1 h2 ih =>
    intro pd hpd
    rw [walkNodes] at hpd
    simp only [h1, h2, if_true] at hpd
    rcases ih pd hpd with h | h
    · exact Or.inl h
    · exact Or.inr
        ((forestTargets_cons_call c s e r children rest pd.target).2.2 h)
  | case6 c s e r children rest st h1 h2 ih₁ ih₂ =>
    intro pd hpd
    rw [walkNodes] at hpd
    simp only [h1, if_true] at hpd
    rw [if_neg h2] at hpd
    rcases ih₂ pd hpd with h | h
    · rcases ih₁ pd h with h' | h'
      · exact Or.inl h'
      · exact Or.inr
          ((forestTargets_cons_call c s e r children rest pd.target).2.1 h')
    · exact Or.inr
        ((forestTargets_cons_call c s e r children rest pd.target).2.2 h)
  | case7 c s e r children rest st h1 st1 hp ih =>
    intro pd hpd
    rw [walkNodes] at hpd
    rw [if_neg h1] at hpd
    simp only [hp] at hpd
    rcases ih pd hpd with h | h
    · have hps := processCall_pendings_target fp c s e r st
      rw [hp] at hps
      rcases hps pd h with h' | h'
      · exact Or.inl h'
      · obtain ⟨ct, hct, hpt⟩ := h'
        refine Or.inr ?_
        rw [hpt]
        exact (forestTargets_cons_call c s e r children rest ct).1 hct
    · exact Or.inr
        ((forestTargets_cons_call c s e r children rest pd.target).2.2 h)
  | case8 c s e r children rest st h1 st1 hp ih₁ ih₂ =>
    intro pd hpd
    rw [walkNodes] at hpd
    rw [if_neg h1] at hpd
    simp only [hp] at hpd
    have hps := processCall_pendings_target fp c s e r st
    rw [hp] at hps
    rcases ih₂ pd hpd with h | h
    · rcases ih₁ pd h with h' | h'
      · rcases hps pd h' with h'' | h''
        · exact Or.inl h''
        · obtain ⟨ct, hct, hpt⟩ := h''
          refine Or.inr ?_
          rw [hpt]
          exact (forestTargets_cons_call c s e r children rest ct).1 hct
      · exact Or.inr
          ((forestTargets_cons_call c s e r children rest pd.target).2.1 h')
    · exact Or.inr
        ((forestTargets_cons_call c s e r children rest pd.target).2.2 h)

/-- Whatever `findFunctionByName` returns is one of the file's
function-like declarations. -/
theorem findFunctionByName_mem (sf : SourceFile) (fn : String)
    (tl : Option Nat) (f : FunctionLike)
    (h : findFunctionByName sf fn tl = some f) : f ∈ allFunctionLikes sf := by
  rw [findFunctionByName] at h
  cases h1 : sf.functions.find? (fun g =>
      g.name == some fn && lineOk g.startLine g.endLine tl) with
  | some fd =>
    simp only [h1, Option.some.injEq] at h
    subst h
    exact List.mem_append_left _ (List.mem_append_left _
      (List.mem_map.mpr ⟨fd, List.mem_of_find?_eq_some h1, rfl⟩))
  | none =>
    simp only [h1] at h
    cases h2 : findInClasses sf.classes fn tl with
    | some fl =>
      simp only [h2, Option.some.injEq] at h
      subst h
      obtain ⟨c, hc, hcf⟩ := List.exists_of_findSome?_eq_some h2
      rw [findInClass] at hcf
      cases h3 : c.methods.find? (fun m =>
          m.name == fn && lineOk m.startLine m.endLine tl) with
      | some m =>
        simp only [h3, Option.some.injEq] at hcf
        subst hcf
        refine List.mem_append_left _ (List.mem_append_right _
          (List.mem_flatMap.mpr ⟨c, hc, List.mem_append_left _ ?_⟩))
        exact List.mem_map.mpr ⟨m, List.mem_of_find?_eq_some h3, rfl⟩
      | none =>
        simp only [h3] at hcf
        obtain ⟨p, hp, hpf⟩ := List.exists_of_findSome?_eq_some hcf
        cases hinit : p.initializer with
        | none => rw [hinit] at hpf; cases hpf
        | some init =>
          rw [hinit] at hpf
          simp only at hpf
          by_cases hcond : (init.kind == InitKind.arrowFunction && p.name == fn
              && lineOk p.startLine p.endLine tl) = true
          · rw [if_pos hcond] at hpf
            obtain rfl := Option.some.injEq _ _ ▸ hpf
            refine List.mem_append_left _ (List.mem_append_right _
              (List.mem_flatMap.mpr ⟨c, hc, List.mem_append_right _ ?_⟩))
            exact List.mem_filterMap.mpr ⟨p, hp, by rw [hinit]; rfl⟩
          · rw [if_neg hcond] at hpf; cases hpf
    | none =>
      simp only [h2] at h
      obtain ⟨vd, hvd, hvf⟩ := List.exists_of_findSome?_eq_some h
      by_cases hname : (vd.name == fn) = true
      · rw [if_pos hname] at hvf
        cases hinit : vd.initializer with
        | none => rw [hinit] at hvf; cases hvf
        | some init =>
          rw [hinit] at hvf
          simp only at hvf
          by_cases hcond : ((init.kind == InitKind.arrowFunction
                || init.kind == InitKind.functionExpression)
              && lineOk vd.startLine vd.endLine tl) = true
          · rw [if_pos hcond] at hvf
            obtain rfl := Option.some.injEq _ _ ▸ hvf
            exact List.mem_append_right _
              (List.mem_filterMap.mpr ⟨vd, hvd, by rw [hinit]; rfl⟩)
          · rw [if_neg hcond] at hvf; cases hvf
      · rw [if_neg hname] at hvf; cases hvf

theorem countP_add_one_le {α} (p q : α → Bool) (l : List α)
    (hpq : ∀ a ∈ l, p a = true → q a = true) (a₀ : α) (ha : a₀ ∈ l)
    (hq : q a₀ = true) (hp : p a₀ = false) :
    l.countP p + 1 ≤ l.countP q := by
  induction l with
  | nil => cases ha
  | cons b t ih =>
    rw [List.countP_cons, List.countP_cons]
    rcases List.mem_cons.mp ha with h | hat
    · subst h
      have hmono : t.countP p ≤ t.countP q :=
        List.countP_mono_left (fun a hat hpa =>
          hpq a (List.mem_cons_of_mem _ hat) hpa)
      rw [hp, hq]
      simp only [Bool.false_eq_true, if_false, if_pos]
      omega
    · have ih' := ih (fun a hat' hpa =>
        hpq a (List.mem_cons_of_mem _ hat') hpa) hat
      by_cases hb : p b = true
      · rw [hb, hpq b (List.mem_cons_self b t) hb]
        omega
      · rw [if_neg hb]
        cases hqb : q b
        · rw [if_neg Bool.false_ne_true]
          omega
        · rw [if_pos rfl]
          omega

theorem contains_false_iff (l : List String) (k : String) :
    l.contains k = false ↔ k ∉ l := by
  constructor
  · intro h hk
    have hc : l.contains k = true := List.elem_iff.mpr hk
    rw [hc] at h
    cases h
  · intro h
    cases hc : l.contains k
    · rfl
    · exact absurd (List.elem_iff.mp hc) h

theorem unseen_congr (prog : Project) (st₁ st₂ : ParseState)
    (h : st₁.visited = st₂.visited) : unseen prog st₁ = unseen prog st₂ := by
  rw [unseen, unseen, h]

theorem unseen_le_len (prog : Project) (st : ParseState) :
    unseen prog st ≤ (allKeys prog).length := by
  rw [unseen]
  exact List.length_filter_le _ _

theorem unseen_mono (prog : Project) (st₁ st₂ : ParseState)
    (h : ∀ k, k ∈ st₁.visited → k ∈ st₂.visited) :
    unseen prog st₂ ≤ unseen prog st₁ := by
  rw [unseen, unseen, ← List.countP_eq_length_filter,
    ← List.countP_eq_length_filter]
  apply List.countP_mono_left
  intro k _ hp
  rw [Bool.not_eq_true'] at hp ⊢
  rw [contains_false_iff] at hp ⊢
  intro hk
  exact hp (h k hk)

theorem unseen_insert_lt (prog : Project) (v : List String) (n m : Nat)
    (key : String) (hkey : key ∈ allKeys prog) (hfresh : key ∉ v) :
    unseen prog ⟨key :: v, n⟩ + 1 ≤ unseen prog ⟨v, m⟩ := by
  rw [unseen, unseen, ← List.countP_eq_length_filter,
    ← List.countP_eq_length_filter]
  apply countP_add_one_le _ _ _ _ key hkey
  · dsimp only
    rw [Bool.not_eq_true']
    rw [contains_false_iff]
    exact hfresh
  · dsimp only
    rw [Bool.not_eq_false']
    exact List.elem_iff.mpr (List.mem_cons_self key v)
  · intro a _ hpa
    dsimp only at hpa ⊢
    rw [Bool.not_eq_true'] at hpa ⊢
    rw [contains_false_iff] at hpa ⊢
    intro hav
    exact hpa (List.mem_cons_of_mem _ hav)

/-- Two recursive entry points that agree on budgeted states expand a
pending list identically. -/
theorem expandPendings_congr (prog : Project) (p₁ p₂ : RecParse) (B : Nat)
    (hmono : ∀ (fp' fn' : String) (sl' cal' : Nat) (st' : ParseState),
      st'.visited ⊆
        (p₁ fp' (some fn') (some sl') none true (some cal') st').2.visited)
    (hcong : ∀ (fp' fn' : String) (sl' cal' : Nat) (st' : ParseState),
      visitedKeyOf fp' (some fn') (some sl') none ∈ allKeys prog →
      unseen prog st' + 1 ≤ B →
      p₁ fp' (some fn') (some sl') none true (some cal') st' =
        p₂ fp' (some fn') (some sl') none true (some cal') st')
    (wLast : Nat) :
    ∀ (ps : List Pending) (nodes : List FlowNode) (edges : List FlowEdge)
      (st : ParseState),
      (∀ pd ∈ ps, keyOfPending pd ∈ allKeys prog) →
      unseen prog st + 1 ≤ B →
      expandPendings p₁ wLast ps nodes edges st =
        expandPendings p₂ wLast ps nodes edges st := by
  intro ps
  induction ps with
  | nil => intro nodes edges st _ _; rfl
  | cons pd rest ih =>
    intro nodes edges st hkeys hbud
    have hkey : visitedKeyOf pd.target.filePath (some (targetNameOf pd.target))
        (some pd.target.startLine) none ∈ allKeys prog :=
      hkeys pd (List.mem_cons_self pd rest)
    have hchild := hcong pd.target.filePath (targetNameOf pd.target)
      pd.target.startLine pd.callSiteId st hkey hbud
    have hsub : st.visited ⊆
        (p₂ pd.target.filePath (some (targetNameOf pd.target))
          (some pd.target.startLine) none true (some pd.callSiteId) st).2.visited := by
      rw [← hchild]
      exact hmono pd.target.filePath (targetNameOf pd.target)
        pd.target.startLine pd.callSiteId st
    have hkeys' : ∀ pd' ∈ rest, keyOfPending pd' ∈ allKeys prog :=
      fun pd' h => hkeys pd' (List.mem_cons_of_mem _ h)
    have hb' : ∀ n', unseen prog
        ⟨(p₂ pd.target.filePath (some (targetNameOf pd.target))
            (some pd.target.startLine) none true (some pd.callSiteId) st).2.visited,
          n'⟩ + 1 ≤ B := by
      intro n'
      have h1 : unseen prog
          ⟨(p₂ pd.target.filePath (some (targetNameOf pd.target))
              (some pd.target.startLine) none true (some pd.callSiteId) st).2.visited,
            n'⟩ ≤ unseen prog st :=
        unseen_mono prog st _ (fun k hk => hsub hk)
      omega
    simp only [expandPendings]
    rw [hchild]
    split
    · split
      · split
        · split
          · exact ih _ _ _ hkeys' (hb' _)
          · exact ih _ _ _ hkeys' (hb' _)
        · exact ih _ _ _ hkeys' (hb' _)
      · exact ih _ _ _ hkeys' (hb' _)
    · exact ih _ _ _ hkeys' (hb' _)

/-- A call-target key of a source file of the project is one of the
project's keys. -/
theorem target_key_mem (prog : Project) (sf : SourceFile)
    (hsf : List.Mem sf prog)
    (ct : CallTarget) (hct : ct ∈ fileTargets sf) :
    visitedKeyOf ct.filePath (some (targetNameOf ct)) (some ct.startLine) none
      ∈ allKeys prog := by
  rw [allKeys]
  exact List.mem_map.mpr ⟨ct, List.mem_flatMap.mpr ⟨sf, hsf, hct⟩, rfl⟩

/-- Two recursive entry points that agree on budgeted states scan a
resolved scope identically. -/
theorem scanScope_congr (prog : Project) (p₁ p₂ : RecParse) (B : Nat)
    (hmono : ∀ (fp' fn' : String) (sl' cal' : Nat) (st' : ParseState),
      st'.visited ⊆
        (p₁ fp' (some fn') (some sl') none true (some cal') st').2.visited)
    (hcong : ∀ (fp' fn' : String) (sl' cal' : Nat) (st' : ParseState),
      visitedKeyOf fp' (some fn') (some sl') none ∈ allKeys prog →
      unseen prog st' + 1 ≤ B →
      p₁ fp' (some fn') (some sl') none true (some cal') st' =
        p₂ fp' (some fn') (some sl') none true (some cal') st')
    (fp : String) (sl? el? : Option Nat) (forest : AstForest)
    (entryId exitId : Nat) (nodes0 : List FlowNode) (st : ParseState)
    (hkeys : ∀ ct ∈ forestTargets forest,
      visitedKeyOf ct.filePath (some (targetNameOf ct)) (some ct.startLine) none
        ∈ allKeys prog)
    (hbud : unseen prog st + 1 ≤ B) :
    scanScope p₁ fp sl? el? forest entryId exitId nodes0 st =
      scanScope p₂ fp sl? el? forest entryId exitId nodes0 st := by
  simp only [scanScope]
  rw [expandPendings_congr prog p₁ p₂ B hmono hcong _ _ _ _ _ ?_ ?_]
  · intro pd hpd
    rcases walkNodes_pendings_targets fp sl? el? forest
        ⟨nodes0, [], entryId, [], st.nextId⟩ pd hpd with h | h
    · exact absurd h (List.not_mem_nil pd)
    · exact hkeys pd.target h
  · have he : unseen prog
        (⟨st.visited, (walkNodes fp sl? el? forest
            ⟨nodes0, [], entryId, [], st.nextId⟩).nextId⟩ : ParseState) =
        unseen prog st := unseen_congr prog _ st rfl
    omega

/-- Two recursive entry points that agree on budgeted states yield the
same `parseCore` result, provided the budget covers the request. -/
theorem parseCore_congr (prog : Project) (p₁ p₂ : RecParse) (B : Nat)
    (hmono : ∀ (fp' fn' : String) (sl' cal' : Nat) (st' : ParseState),
      st'.visited ⊆
        (p₁ fp' (some fn') (some sl') none true (some cal') st').2.visited)
    (hcong : ∀ (fp' fn' : String) (sl' cal' : Nat) (st' : ParseState),
      visitedKeyOf fp' (some fn') (some sl') none ∈ allKeys prog →
      unseen prog st' + 1 ≤ B →
      p₁ fp' (some fn') (some sl') none true (some cal') st' =
        p₂ fp' (some fn') (some sl') none true (some cal') st')
    (fp : String) (fn? : Option String) (sl el : Option Nat) (rec : Bool)
    (cal : Option Nat) (st0 : ParseState)
    (hbud : (if visitedKeyOf fp fn? sl el ∈ allKeys prog
        then unseen prog st0 + 1 else unseen prog st0 + 2) ≤ B + 1) :
    parseCore prog p₁ fp fn? sl el rec cal st0 =
      parseCore prog p₂ fp fn? sl el rec cal st0 := by
  simp only [parseCore]
  split
  · rfl
  · rename_i hnot
    have hfresh : visitedKeyOf fp fn? sl el ∉ st0.visited := by
      intro hmem
      exact hnot (List.elem_iff.mpr hmem)
    have hb2 : ∀ n', unseen prog
        ⟨visitedKeyOf fp fn? sl el :: st0.visited, n'⟩ + 1 ≤ B := by
      intro n'
      by_cases hk : visitedKeyOf fp fn? sl el ∈ allKeys prog
      · rw [if_pos hk] at hbud
        have := unseen_insert_lt prog st0.visited n' st0.nextId _ hk hfresh
        have he : unseen prog ⟨st0.visited, st0.nextId⟩ = unseen prog st0 :=
          unseen_congr prog _ st0 rfl
        omega
      · rw [if_neg hk] at hbud
        have := unseen_mono prog st0
          ⟨visitedKeyOf fp fn? sl el :: st0.visited, n'⟩
          (fun k hk' => List.mem_cons_of_mem _ hk')
        omega
    split
    · rfl
    · rename_i sf hsf
      have hmem : List.Mem sf prog := List.mem_of_find?_eq_some hsf
      split
      · rename_i fn hjs
        split
        · rename_i f hfind
          apply scanScope_congr prog p₁ p₂ B hmono hcong
          · intro ct hct
            apply target_key_mem prog sf hmem ct
            rw [fileTargets]
            exact List.mem_append_right _ (List.mem_flatMap.mpr
              ⟨f, findFunctionByName_mem sf fn sl f hfind, hct⟩)
          · exact hb2 _
        · rfl
      · split
        · split
          · rfl
          · apply scanScope_congr prog p₁ p₂ B hmono hcong
            · intro ct hct
              apply target_key_mem prog sf hmem ct
              rw [fileTargets]
              exact List.mem_append_left _ hct
            · exact hb2 _
        · split
          · rfl
          · apply scanScope_congr prog p₁ p₂ B hmono hcong
            · intro ct hct
              apply target_key_mem prog sf hmem ct
              rw [fileTargets]
              exact List.mem_append_left _ hct
            · exact hb2 _

/-- Once the fuel covers the unseen-key budget of the effective state,
adding more fuel never changes the result: the recursion bottoms out on
the visited set, not on the fuel. -/
theorem parse_fuel_mono (prog : Project) :
    ∀ n m (fp : String) (fn? : Option String) (sl el : Option Nat)
      (rec : Bool) (cal : Option Nat) (st : ParseState),
      n ≤ m →
      (if visitedKeyOf fp fn? sl el ∈ allKeys prog
        then unseen prog (if rec then st else ⟨[], st.nextId⟩) + 1
        else unseen prog (if rec then st else ⟨[], st.nextId⟩) + 2) ≤ n →
      parseFunctionCalls prog n fp fn? sl el rec cal st =
        parseFunctionCalls prog m fp fn? sl el rec cal st := by
  intro n
  induction n using Nat.strong_induction_on with
  | _ n IH =>
    intro m fp fn? sl el rec cal st hnm hbud
    cases n with
    | zero => split at hbud <;> omega
    | succ k =>
      cases m with
      | zero => omega
      | succ j =>
        simp only [parseFunctionCalls]
        apply parseCore_congr prog _ _ k
        · intro fp' fn' sl' cal' st'
          exact (parse_count_inv prog k fp' fn' sl' cal' st').1
        · intro fp' fn' sl' cal' st' hkey hb
          apply IH k (Nat.lt_succ_self k) j fp' (some fn') (some sl') none true
            (some cal') st' (Nat.le_of_succ_le_succ hnm)
          have hst : (if (true : Bool) = true then st'
              else (⟨[], st'.nextId⟩ : ParseState)) = st' := rfl
          rw [hst, if_pos hkey]
          exact hb
        · exact hbud

/-- C2: on a cyclic call graph the extraction terminates and never
duplicates a scope entry: (A) a request whose visited key is already
claimed short-circuits to the empty result with `none` entry/exit ids
instead of recursing; (B) every result of every request carries at most
one scope-entry Step per `(file, function)` pair; (C) the recursion is
fuel-independent once the fuel reaches `fuelBound` — the abstraction of
termination under the fuel embedding; and (D) on the concrete
two-function cycle `cycA ↔ cycB`, the top-level extract of `cycA` yields
exactly one Entry Step for each of the two reachable pairs. -/
theorem cycle_termination_and_uniqueness :
    (∀ (prog : Project) (fuel : Nat) (fp : String) (fn? : Option String)
        (sl el : Option Nat) (cal : Option Nat) (st : ParseState),
      visitedKeyOf fp fn? sl el ∈ st.visited →
      parseFunctionCalls prog fuel fp fn? sl el true cal st =
        (emptyResult, st)) ∧
    (∀ (prog : Project) (fuel : Nat) (fp : String) (fn? : Option String)
        (sl el : Option Nat) (rec : Bool) (cal : Option Nat) (st : ParseState)
        (file fname : String),
      entryCount file fname
        (parseFunctionCalls prog fuel fp fn? sl el rec cal st).1.nodes ≤ 1) ∧
    (∀ (prog : Project) (fuel : Nat) (fp : String) (fn? : Option String)
        (sl el : Option Nat) (rec : Bool) (cal : Option Nat) (st : ParseState),
      fuelBound prog ≤ fuel →
      parseFunctionCalls prog fuel fp fn? sl el rec cal st =
        parseFunctionCalls prog (fuelBound prog) fp fn? sl el rec cal st) ∧
    (entryCount "cyc.ts" "cycA"
        (parseFunctionCalls progCyc (fuelBound progCyc) "cyc.ts" (some "cycA")
          none none false none ⟨[], 0⟩).1.nodes = 1 ∧
      entryCount "cyc.ts" "cycB"
        (parseFunctionCalls progCyc (fuelBound progCyc) "cyc.ts" (some "cycA")
          none none false none ⟨[], 0⟩).1.nodes = 1) := by
  refine ⟨?_, ?_, ?_, by decide, by decide⟩
  · intro prog fuel fp fn? sl el cal st hmem
    exact revisit_short_circuit prog fuel fp fn? sl el cal st
      (List.elem_iff.mpr hmem)
  · intro prog fuel fp fn? sl el rec cal st file fname
    cases fuel with
    | zero => exact Nat.zero_le 1
    | succ k =>
      simp only [parseFunctionCalls]
      exact (parseCore_count prog (parseFunctionCalls prog k)
        (parse_count_inv prog k) fp fn? sl el rec cal _).2.2 file fname
  · intro prog fuel fp fn? sl el rec cal st hf
    symm
    apply parse_fuel_mono prog (fuelBound prog) fuel fp fn? sl el rec cal st hf
    have hu := unseen_le_len prog (if rec then st else ⟨[], st.nextId⟩)
    rw [fuelBound]
    split <;> omega

/-- Concrete instantiation of the guarded conjuncts of the C2 theorem on
the cyclic project. -/
theorem cycle_termination_and_uniqueness_witness :
    parseFunctionCalls progCyc 3 "cyc.ts" (some "cycB") (some 5) none true
        (some 0) ⟨["cyc.ts::cycB"], 7⟩ =
      (emptyResult, ⟨["cyc.ts::cycB"], 7⟩) ∧
    parseFunctionCalls progCyc 9 "cyc.ts" (some "cycA") none none false none
        ⟨[], 0⟩ =
      parseFunctionCalls progCyc (fuelBound progCyc) "cyc.ts" (some "cycA")
        none none false none ⟨[], 0⟩ := by
  refine ⟨?_, ?_⟩
  · exact cycle_termination_and_uniqueness.1 progCyc 3 "cyc.ts" (some "cycB")
      (some 5) none (some 0) ⟨["cyc.ts::cycB"], 7⟩ (by decide)
  · exact cycle_termination_and_uniqueness.2.2.1 progCyc 9 "cyc.ts"
      (some "cycA") none none false none ⟨[], 0⟩ (by decide)

end FlowMaster
